import Mathlib

/-!
Verification development for the Savify downloader (src/savify/savify.py).

The Python module is shallowly embedded here.  Python strings are modelled
as lists of characters (so that every operation computes by kernel
reduction), Python floats as exact rationals, Python exceptions that can
escape a function as the error side of a small result monad, and the
external collaborators (filesystem, search engine, download engine,
transcoder) as oracle fields of an environment record, with exactly the
outcome alphabets the code distinguishes.
-/

namespace Savify

/-- Python runtime errors that the code under test can raise and that no
handler in the modelled code catches at the place they arise. -/
inductive PyErr where
  | zeroDivision
  | indexError
  | keyError
  | unboundLocal
  | fileNotFound
  | typeError
  deriving DecidableEq, Repr

/-- Result of running a piece of Python code: a value, or an escaping
exception. -/
inductive Res (α : Type) where
  | ok (a : α)
  | err (e : PyErr)
  deriving DecidableEq, Repr

namespace Res

def bind {α β : Type} : Res α → (α → Res β) → Res β
  | .ok a, f => f a
  | .err e, _ => .err e

instance : Monad Res where
  pure := .ok
  bind := bind

@[simp] theorem bind_ok {α β : Type} (a : α) (f : α → Res β) :
    bind (.ok a) f = f a := rfl

@[simp] theorem bind_err {α β : Type} (e : PyErr) (f : α → Res β) :
    bind (.err e) f = .err e := rfl

@[simp] theorem monadBind_eq {α β : Type} (x : Res α) (f : α → Res β) :
    x >>= f = bind x f := rfl

@[simp] theorem pure_eq {α : Type} (a : α) : (pure a : Res α) = .ok a := rfl

theorem bind_eq_ok {α β : Type} {x : Res α} {f : α → Res β} {b : β} :
    bind x f = .ok b ↔ ∃ a, x = .ok a ∧ f a = .ok b := by
  cases x <;> simp [bind]

def isOk {α : Type} : Res α → Prop
  | .ok _ => True
  | .err _ => False

end Res

/-- Result of mapping a fallible Python computation over a list, stopping at
the first escaping exception (the semantics of a Python loop whose body can
raise). -/
def mapRes {α β : Type} (f : α → Res β) : List α → Res (List β)
  | [] => .ok []
  | x :: xs => Res.bind (f x) fun y => Res.bind (mapRes f xs) fun ys => .ok (y :: ys)

/-- Python list indexing: out of range raises IndexError. -/
def pyIndex {α : Type} (l : List α) (i : Nat) : Res α :=
  match l.get? i with
  | some a => .ok a
  | none => .err .indexError

@[simp] theorem pyIndex_cons_zero {α : Type} (a : α) (l : List α) :
    pyIndex (a :: l) 0 = .ok a := rfl

/-! Python strings, modelled as character lists -/

/-- The model of a Python str. -/
abbrev Str := List Char

/-- Character list of a Lean string literal. -/
def chars (s : String) : Str := s.data

/-- Python str.upper (ASCII behaviour, which is all the code relies on). -/
def upperStr (s : Str) : Str := s.map Char.toUpper

/-- Does the string start with the given pattern? -/
def startsWith : Str → Str → Bool
  | [], _ => true
  | _ :: _, [] => false
  | a :: as, b :: bs => a = b && startsWith as bs

/-- All suffixes of a string, longest first, including the empty one. -/
def suffixes : Str → List Str
  | [] => [[]]
  | c :: rest => (c :: rest) :: suffixes rest

/-- Python substring membership, needle `in` hay. -/
def strIn (needle hay : Str) : Bool :=
  (suffixes hay).any fun t => startsWith needle t

/-- Python "".join of a list of strings. -/
def joinStr : List Str → Str
  | [] => []
  | s :: rest => s ++ joinStr rest

/-- Fuel-indexed worker for `splitStr`; the fuel is the string length, which
is always enough because each step consumes at least one character. -/
def splitStrF (sep : Str) : Nat → Str → List Str
  | _, [] => [[]]
  | 0, s => [s]
  | fuel+1, c :: rest =>
    if sep ≠ [] && startsWith sep (c :: rest) then
      [] :: splitStrF sep fuel (List.drop sep.length (c :: rest))
    else
      match splitStrF sep fuel rest with
      | [] => [[c]]
      | t :: ts => (c :: t) :: ts

/-- Python str.split(sep) for a non-empty separator: splits on every
non-overlapping occurrence, keeping empty fields, and yields a single empty
field for the empty string. -/
def splitStr (sep s : Str) : List Str := splitStrF sep s.length s

/-- Fuel-indexed worker for `replaceStr`. -/
def replaceStrF (pat rep : Str) : Nat → Str → Str
  | _, [] => []
  | 0, s => s
  | fuel+1, c :: rest =>
    if pat ≠ [] && startsWith pat (c :: rest) then
      rep ++ replaceStrF pat rep fuel (List.drop pat.length (c :: rest))
    else
      c :: replaceStrF pat rep fuel rest

/-- Python str.replace for a non-empty pattern: replaces every
non-overlapping occurrence, scanning left to right. -/
def replaceStr (pat rep s : Str) : Str := replaceStrF pat rep s.length s

/-! Python numbers

The scoring arithmetic of the source runs on Python floats; it is modelled
here with exact rationals.  The rational operations are written over
`Rat.divInt` and integer arithmetic so that every concrete computation
reduces inside the kernel; the lemmas below connect them to the Mathlib
field operations for the general proofs. -/

/-- Embedding of a Python non-negative int into the rationals. -/
def qn (n : Nat) : ℚ := Rat.divInt (Int.ofNat n) 1

/-- Rational division (the Python float division, modelled exactly). -/
def qdiv (a b : ℚ) : ℚ := Rat.divInt (a.num * b.den) (a.den * b.num)

/-- Rational multiplication. -/
def qmul (a b : ℚ) : ℚ := Rat.divInt (a.num * b.num) (a.den * b.den)

theorem qn_eq (n : Nat) : qn n = (n : ℚ) := by
  simp [qn, Rat.divInt_eq_div]

theorem mul_den_eq_num (a : ℚ) : a * (a.den : ℚ) = (a.num : ℚ) := by
  have had : ((a.den : ℚ)) ≠ 0 := by
    exact_mod_cast a.den_nz
  have h := Rat.num_div_den a
  rw [div_eq_iff had] at h
  exact h.symm

theorem qdiv_eq (a b : ℚ) : qdiv a b = a / b := by
  rw [qdiv, Rat.divInt_eq_div]
  push_cast
  have had : ((a.den : ℚ)) ≠ 0 := by exact_mod_cast a.den_nz
  have hbd : ((b.den : ℚ)) ≠ 0 := by exact_mod_cast b.den_nz
  rcases eq_or_ne b 0 with hb | hb
  · subst hb; simp
  · have hbn : (b.num : ℚ) ≠ 0 := by
      exact_mod_cast Rat.num_ne_zero.mpr hb
    rw [div_eq_div_iff (by exact mul_ne_zero had hbn) hb]
    rw [← mul_den_eq_num a, ← mul_den_eq_num b]
    ring

theorem qmul_eq (a b : ℚ) : qmul a b = a * b := by
  rw [qmul, Rat.divInt_eq_div]
  push_cast
  have had : ((a.den : ℚ)) ≠ 0 := by exact_mod_cast a.den_nz
  have hbd : ((b.den : ℚ)) ≠ 0 := by exact_mod_cast b.den_nz
  rw [div_eq_iff (by exact mul_ne_zero had hbd)]
  rw [← mul_den_eq_num a, ← mul_den_eq_num b]
  ring

/-- Python division: raises ZeroDivisionError on a zero divisor. -/
def pyDiv (a b : ℚ) : Res ℚ :=
  if b = 0 then .err .zeroDivision else .ok (qdiv a b)

theorem pyDiv_ok_iff {a b c : ℚ} :
    pyDiv a b = .ok c ↔ b ≠ 0 ∧ c = a / b := by
  unfold pyDiv
  split
  · simp_all
  · rename_i h
    constructor
    · intro he
      refine ⟨h, ?_⟩
      injection he with he2
      rw [← he2, qdiv_eq]
    · rintro ⟨-, rfl⟩
      rw [qdiv_eq]

/-- Round-half-to-even of a rational to an integer (the Python built-in
round, on the exact value). -/
def roundHalfEven (a : ℚ) : Int :=
  let f := Int.fdiv a.num (Int.ofNat a.den)
  let rem := a.num - f * (Int.ofNat a.den)
  if 2 * rem < (Int.ofNat a.den) then f
  else if (Int.ofNat a.den) < 2 * rem then f + 1
  else if f % 2 = 0 then f else f + 1

/-- Python round(x, 2): round to two decimal places, ties to even.  The
source applies it to float values; the model applies it to the exact
rational. -/
def pyRound2 (x : ℚ) : ℚ := Rat.divInt (roundHalfEven (qmul x (qn 100))) 100


/-! Data model -/

/-- Modelled from the spec: source platform identifiers (the types module is
not under src/).  The code only compares against the provider platform
(Platform.SPOTIFY); every other value behaves alike. -/
inductive PlatformT where
  | spotify
  | generic
  deriving DecidableEq, Repr

/-- Modelled from the spec: the query-type enum {track, album, playlist,
artist, episode, show} (the types module is not under src/). -/
inductive QType where
  | track
  | album
  | playlist
  | artist
  | episode
  | tshow
  deriving DecidableEq, Repr

/-- The TrackDescriptor record (the track module is not under src/; its
fields are modelled from the spec data model and from the attribute reads in
savify.py).  `tid` stands for the Python attribute id. -/
structure Track where
  tid : Str
  name : Str
  artists : List Str
  album_name : Str
  release_date : Str
  disc_number : Int
  track_number : Int
  album_track_count : Int
  playlist : Str
  isExplicit : Bool
  platform : PlatformT
  track_type : QType
  cover_art_url : Str
  confidence_interval : ℚ
  deriving DecidableEq, Repr

/-- A search candidate: the two fields of the raw search entry the scoring
and selection logic reads (fulltitle and id). -/
structure Video where
  fulltitle : Str
  vid : Str
  deriving DecidableEq, Repr

/-- One scored candidate, mirroring the tuple appended to matchInfo:
(fulltitle, round(confidence*100, 2), round(reverseConfidence*100, 2),
video). -/
structure MatchEntry where
  title : Str
  conf : ℚ
  rev : ℚ
  video : Video
  deriving DecidableEq, Repr

/-- An error description stored in a status record.  Fixed literal messages
are kept verbatim; the no-match diagnostic is an f-string interpolating two
floats and the best candidate title, kept here as structured data because
Python float formatting is not modelled. -/
inductive PyMsg where
  | lit (s : Str)
  | noMatchDiag (ci : ℚ) (bestConf : ℚ) (bestTitle : Str)
  deriving DecidableEq, Repr

/-- The status dict built by Savify._download: track, returncode, location,
and an error entry present exactly on the failure paths. -/
structure Status where
  track : Track
  returncode : Int
  location : Str
  error : Option PyMsg := none
  deriving DecidableEq, Repr

/-- Modelled from the spec: Format.MP3 from the missing types module; the
code compares the configured download format against it for the cover-art
branch and the codec override. -/
def formatMP3 : Str := chars "mp3"

/-- Outcome of one call of shutil.move as the code distinguishes it: success,
the ShutilError its handler catches, or any other exception (for a missing
source file Python raises FileNotFoundError, which no handler catches). -/
inductive MoveRes where
  | moved
  | shutilError
  | raisePy (e : PyErr)
  deriving DecidableEq, Repr

/-- Oracle environment for one per-track acquisition: the responses of every
external collaborator the code consults.  Attempt-indexed oracles are keyed
by the 1-based attempt counter of the loop that makes the call. -/
structure Env where
  checkOutput : Bool
  search : List Video
  dlRaises : Nat → Bool
  tempCheck : Nat → Bool
  moveRes : MoveRes
  coverFetch : Nat → Option Str
  ffmpegRaises : Nat → Bool
  cache : List (Str × Str)

/-- The Savify instance configuration consulted by the download pass.
safePath stands for the external safe_path_string utility (utils module not
under src/), kept abstract as a function parameter. -/
structure Config where
  download_format : Str
  skip_cover_art : Bool
  retry : Int
  group : Str
  downloadDir : Str
  tempDir : Str
  safePath : Str → Str

/-! Matcher: normalisation, scoring, selection (savify.py lines 330-392) -/

/-- Is the character an opening bracket of the stripping regex. -/
def isOpener (c : Char) : Bool := c = '(' || c = '['

/-- Is the character a closing bracket of the stripping regex. -/
def isCloser (c : Char) : Bool := c = ')' || c = ']'

/-- Scan for the first closing bracket; the regex dot does not cross a
newline, so a newline aborts the match.  Returns the suffix after the
closer. -/
def findCloser : Str → Option Str
  | [] => none
  | c :: rest =>
    if isCloser c then some rest
    else if c = '\n' then none
    else findCloser rest

/-- Fuel-indexed worker for `stripBrackets`. -/
def stripBracketsF : Nat → Str → Str
  | _, [] => []
  | 0, s => s
  | fuel+1, c :: rest =>
    if isOpener c then
      match findCloser rest with
      | some rest2 => stripBracketsF fuel rest2
      | none => c :: stripBracketsF fuel rest
    else c :: stripBracketsF fuel rest

/-- The normalisation re.sub of line 330: delete every non-overlapping,
non-greedy span from an opening ( or [ to the nearest ) or ]. -/
def stripBrackets (s : Str) : Str := stripBracketsF s.length s

/-- trackNameSplit of line 331: strip brackets, take the text before the
first " - ", split on single spaces. -/
def trackNameSplit (name : Str) : List Str :=
  splitStr (chars " ") (List.headD (splitStr (chars " - ") (stripBrackets name)) [])

/-- trackNameSplitWithPunc of line 332: same, from the raw name. -/
def trackNameSplitWithPunc (name : Str) : List Str :=
  splitStr (chars " ") (List.headD (splitStr (chars " - ") name) [])

/-- The keyword-match accumulation of lines 340-342: sum of the lengths of
the words whose uppercase form occurs in the uppercase candidate title.
The guard on a non-empty word list in the source is vacuous (a Python split
on an explicit separator never returns an empty list) and is dropped. -/
def kwMatchesOf : List Str → Str → Nat
  | [], _ => 0
  | w :: ws, title =>
    (if strIn (upperStr w) (upperStr title) then w.length else 0) + kwMatchesOf ws title

/-- Lines 338-353: the two keyword scores and the reverse score, before any
boost.  Returns (confidence, reverseConfidence) as exact fractions.  Each
division raises ZeroDivisionError when its divisor is zero, in source
order. -/
def preBoost (t : Track) (v : Video) : Res (ℚ × ℚ) :=
  Res.bind (pyDiv (qn (kwMatchesOf (trackNameSplit t.name) v.fulltitle))
      (qn (joinStr (trackNameSplit t.name)).length)) fun conf0 =>
  Res.bind (pyDiv (qn (joinStr (trackNameSplit t.name)).length)
      (qn v.fulltitle.length)) fun rev =>
  Res.bind (pyDiv (qn (kwMatchesOf (trackNameSplitWithPunc t.name) v.fulltitle))
      (qn (joinStr (trackNameSplitWithPunc t.name)).length)) fun confP =>
  .ok (if conf0 < confP then confP else conf0, rev)

/-- The loop variable word as the boost branch of lines 355-362 sees it:
the source reuses word from the loop over trackNameSplitWithPunc without
re-binding it, so it holds the last word of that list. -/
def staleWord (t : Track) : Str := (trackNameSplitWithPunc t.name).getLastD []

/-- Lines 355-362: the secondary boost pass exactly as written.  kwMatches
still holds the accumulation of the first loop; only the stale word is
tested for artist membership and title occurrence; the new score is the sum
over the enlarged denominator and the larger of the two scores is kept. -/
def boostPass (t : Track) (v : Video) (conf1 : ℚ) : Res ℚ :=
  Res.bind (pyIndex t.artists 0) fun a0 =>
  let artistSplit := splitStr (chars " ") a0
  let w := staleWord t
  let kw := kwMatchesOf (trackNameSplit t.name) v.fulltitle
  let kw2 :=
    if w ∈ artistSplit then
      if strIn (upperStr w) (upperStr v.fulltitle) then kw + w.length else kw
    else kw
  Res.bind (pyDiv (qn kw2)
      (qn ((joinStr (trackNameSplit t.name)).length + (joinStr artistSplit).length)))
    fun newConf =>
  .ok (if conf1 < newConf then newConf else conf1)

/-- Lines 337-366 for one candidate: produce the matchInfo entry.  The boost
branch runs exactly when the raw fraction is below the stored
confidence_interval (which download() sets to the argument times 100). -/
def scoreVideo (t : Track) (v : Video) : Res MatchEntry :=
  Res.bind (preBoost t v) fun pr =>
  Res.bind
    (if pr.1 < t.confidence_interval then boostPass t v pr.1 else .ok pr.1)
    fun conf2 =>
  .ok ⟨v.fulltitle, pyRound2 (qmul conf2 (qn 100)), pyRound2 (qmul pr.2 (qn 100)), v⟩

/-- Modelled from the spec: the INTENDED boost score of design note 9 —
add the character count of every word of the primary artist name that
occurs in the candidate title to the numerator, over the enlarged
denominator.  Used only to witness the divergence of the code from the
spec. -/
def specBoostScore (t : Track) (v : Video) : Res ℚ :=
  Res.bind (pyIndex t.artists 0) fun a0 =>
  let artistSplit := splitStr (chars " ") a0
  let kw := kwMatchesOf (trackNameSplit t.name) v.fulltitle
  let kw2 := kw + kwMatchesOf artistSplit v.fulltitle
  pyDiv (qn kw2)
    (qn ((joinStr (trackNameSplit t.name)).length + (joinStr artistSplit).length))

/-- Descending order on stored confidence: the sort key of line 370. -/
def confDesc (a b : MatchEntry) : Prop := b.conf ≤ a.conf

instance : DecidableRel confDesc := fun a b =>
  inferInstanceAs (Decidable (b.conf ≤ a.conf))

instance : IsTotal MatchEntry confDesc := ⟨fun a b => le_total b.conf a.conf⟩

instance : IsTrans MatchEntry confDesc := ⟨fun _ _ _ h1 h2 => le_trans h2 h1⟩

/-- Descending order on stored reverse confidence: the tie-break key of
line 373. -/
def revDesc (a b : MatchEntry) : Prop := b.rev ≤ a.rev

instance : DecidableRel revDesc := fun a b =>
  inferInstanceAs (Decidable (b.rev ≤ a.rev))

instance : IsTotal MatchEntry revDesc := ⟨fun a b => le_total b.rev a.rev⟩

instance : IsTrans MatchEntry revDesc := ⟨fun _ _ _ h1 h2 => le_trans h2 h1⟩

/-- Result of the selection of lines 368-390: a chosen candidate, a
below-threshold best kept for the diagnostic only, or no candidates at
all (only possible on an empty matchInfo). -/
inductive SelectRes where
  | selected (best : MatchEntry)
  | noMatch (best : MatchEntry)
  | noCandidates
  deriving DecidableEq, Repr

/-- Lines 368-390: rank by stored confidence descending (a stable sort, as
in Python); if the top meets the threshold and is at least 100, re-rank
every at-least-100 candidate by reverse confidence descending and take the
first; if the top only meets the threshold, take it outright; otherwise no
selection, keeping the top for the diagnostic.  The indexing of an empty
re-ranked list would raise IndexError (unreachable from a non-empty
matchInfo). -/
def selectBest (ci : ℚ) (mi : List MatchEntry) : Res SelectRes :=
  match List.insertionSort confDesc mi with
  | [] => .ok .noCandidates
  | top :: rest =>
    if ci ≤ top.conf then
      if (100 : ℚ) ≤ top.conf then
        match List.insertionSort revDesc
            ((top :: rest).filter fun x => decide ((100 : ℚ) ≤ x.conf)) with
        | b :: _ => .ok (.selected b)
        | [] => .err .indexError
      else .ok (.selected top)
    else .ok (.noMatch top)


/-! Acquirer: the per-track pipeline (Savify._download, lines 246-475) -/

/-- Modelled from the spec: the track module (not under src/) renders a
track as "Artist - Title", primary artist first; indexing an empty artist
list raises IndexError as Python list indexing does. -/
def Track.str (t : Track) : Res Str :=
  Res.bind (pyIndex t.artists 0) fun a0 =>
  .ok (a0 ++ chars " - " ++ t.name)

/-- Total rendering of a track used on the specification side of theorems;
it agrees with Track.str whenever the artist list is non-empty. -/
def trackStrD (t : Track) : Str := t.artists.headD [] ++ chars " - " ++ t.name

theorem str_eq_strD {t : Track} (h : t.artists ≠ []) :
    Track.str t = .ok (trackStrD t) := by
  unfold Track.str trackStrD
  cases ht : t.artists with
  | nil => exact absurd ht h
  | cons a rest => simp [ht, pyIndex]

/-- The _sort_dir helper of lines 30-38: expand the grouping template.  The
replacement arguments are evaluated eagerly, so a non-empty template indexes
the artist list even when no placeholder occurs. -/
def sortDir (cfg : Config) (t : Track) : Res Str :=
  if cfg.group = [] then .ok []
  else
    Res.bind (pyIndex t.artists 0) fun a0 =>
    let g1 := replaceStr (chars "%artist%") (cfg.safePath a0) cfg.group
    let g2 := replaceStr (chars "%album%") (cfg.safePath t.album_name) g1
    let g3 := replaceStr (chars "%playlist%") (cfg.safePath t.playlist) g2
    .ok g3

/-- The output path of lines 253-254: download dir, group expansion,
sanitised "Artist - Title.format". -/
def outputPath (cfg : Config) (t : Track) : Res Str :=
  Res.bind (sortDir cfg t) fun sd =>
  Res.bind (Track.str t) fun s =>
  .ok (cfg.downloadDir ++ chars "/" ++ sd ++ chars "/" ++
    (cfg.safePath (s ++ chars "." ++ cfg.download_format)))

/-- The search query of lines 247-251: a ytsearch5 query for provider
tracks (podcast suffix for episodes, explicit qualifier when flagged),
empty for anything else. -/
def buildQuery (t : Track) : Res Str :=
  if t.platform = .spotify then
    if t.track_type = .episode then
      Res.bind (pyIndex t.artists 0) fun a0 =>
      .ok (chars "ytsearch5:" ++ a0 ++ chars " - " ++ t.name ++ chars " podcast")
    else
      Res.bind (Track.str t) fun s =>
      .ok (chars "ytsearch5:" ++ s ++ chars " song " ++
        (if t.isExplicit then chars "explicit" else []))
  else .ok []

/-- What the search-and-select prefix of a loop iteration decides: carry on
to the download (with the selected link, or with the literal query when the
track is not provider-sourced or the search returned nothing), or return
the no-match failure.  A noCandidates selection would make the source read
bestMatch[1] from None, a TypeError. -/
inductive SearchOut where
  | proceed
  | noMatchFound (best : MatchEntry)
  deriving DecidableEq, Repr

/-- Lines 319-392 as run at the top of every download attempt. -/
def searchPhase (env : Env) (t : Track) : Res SearchOut :=
  if t.platform = .spotify then
    if env.search.length > 0 then
      Res.bind (mapRes (scoreVideo t) env.search) fun mi =>
      Res.bind (selectBest t.confidence_interval mi) fun sel =>
      match sel with
      | .selected _ => .ok .proceed
      | .noMatch best => .ok (.noMatchFound best)
      | .noCandidates => .err .typeError
    else .ok .proceed
  else .ok .proceed

/-- How the download while-loop of lines 312-404 ends. -/
inductive DlExit where
  | noMatchFound (best : MatchEntry)
  | dlFailed
  | gotFile
  | exhausted
  deriving DecidableEq, Repr

/-- The download while-loop.  remaining counts the iterations the attempt
ceiling of 5 still allows; attempt is the Python counter already consumed.
Each iteration re-runs the search, then the download: an extraction failure
is retried unless the attempt count exceeds the configured retry, in which
case the loop returns the terminal failure; a download that leaves no temp
file behind is silently retried; when the ceiling runs out the loop falls
through to the code after it.  The exit carries the final attempt count. -/
def dlLoopAux (cfg : Config) (env : Env) (t : Track) :
    Nat → Nat → Res (DlExit × Nat)
  | 0, attempt => .ok (.exhausted, attempt)
  | remaining+1, attempt =>
    let k := attempt + 1
    Res.bind (searchPhase env t) fun so =>
    match so with
    | .noMatchFound best => .ok (.noMatchFound best, k)
    | .proceed =>
      if env.dlRaises k then
        if cfg.retry < (k : Int) then .ok (.dlFailed, k)
        else dlLoopAux cfg env t remaining k
      else if env.tempCheck k then .ok (.gotFile, k)
      else dlLoopAux cfg env t remaining k

/-- The download loop as entered at line 312: ceiling 5, counter 0. -/
def dlLoop (cfg : Config) (env : Env) (t : Track) : Res (DlExit × Nat) :=
  dlLoopAux cfg env t 5 0

/-- How the cover-art while-loop of lines 421-463 ends: a break or a fall
through (both lead to the success epilogue), or the filesystem failure
return. -/
inductive CoverExit where
  | finished
  | fsError
  deriving DecidableEq, Repr

/-- Cache lookup for downloaded cover art, keyed "album - primary artist". -/
def lookupCache (cache : List (Str × Str)) (k : Str) : Option Str :=
  (cache.find? fun p => decide (p.1 = k)).map Prod.snd

/-- The cover-art while-loop.  Each iteration recomputes the cache key
(indexing the artist list), consults the cache, otherwise tries the fetch
(every fetch exception is swallowed by the bare except of line 432, leaving
the local variable unchanged); building the transcoder invocation then
reads the cover_art local, which raises UnboundLocalError if no iteration
ever bound it; a transcoder failure is retried until the attempt count
exceeds the configured retry, at which point the untagged temp file is
moved as a fallback, a ShutilError there being the filesystem failure. -/
def coverLoopAux (cfg : Config) (env : Env) (t : Track) :
    Nat → Nat → Option Str → List (Str × Str) → Res CoverExit
  | 0, _, _, _ => .ok .finished
  | remaining+1, attempt, coverArt, cache =>
    let k := attempt + 1
    Res.bind (pyIndex t.artists 0) fun a0 =>
    let cname := t.album_name ++ chars " - " ++ a0
    let st :=
      match lookupCache cache cname with
      | some v => (some v, cache)
      | none =>
        match env.coverFetch k with
        | some p => (some p, cache ++ [(cname, p)])
        | none => (coverArt, cache)
    match st.1 with
    | none => .err .unboundLocal
    | some _ =>
      if env.ffmpegRaises k then
        if cfg.retry < (k : Int) then
          match env.moveRes with
          | .moved => .ok .finished
          | .shutilError => .ok .fsError
          | .raisePy e => .err e
        else coverLoopAux cfg env t remaining k st.1 st.2
      else .ok .finished

/-- The literal error string of line 401. -/
def errFailedDownload : PyMsg := .lit (chars "Failed to download song.")

/-- The literal error string of lines 411 and 460. -/
def errFilesystem : PyMsg := .lit (chars "Filesystem error.")

/-- Savify._download, lines 246-475: query and output path construction,
the skip check, the search-and-download loop, then either the bare move
(non-MP3 format or cover art skipped) or the cover-art transcode loop,
ending in the success epilogue.  Every terminal path fills the status
record; an escaping Python error is the err side. -/
def downloadTrack (cfg : Config) (env : Env) (t : Track) : Res Status :=
  Res.bind (buildQuery t) fun _query =>
  Res.bind (outputPath cfg t) fun output =>
  let st : Status := { track := t, returncode := -1, location := output }
  if env.checkOutput then
    .ok { st with returncode := 0 }
  else
    Res.bind (dlLoop cfg env t) fun ex =>
    match ex.1 with
    | .noMatchFound best =>
      let msg : PyMsg := .noMatchDiag t.confidence_interval best.conf best.title
      .ok { st with returncode := 1, error := some msg }
    | .dlFailed =>
      .ok { st with returncode := 1, error := some errFailedDownload }
    | _ =>
      if cfg.download_format ≠ formatMP3 || cfg.skip_cover_art then
        match env.moveRes with
        | .moved => .ok { st with returncode := 0 }
        | .shutilError => .ok { st with returncode := 1, error := some errFilesystem }
        | .raisePy e => .err e
      else
        Res.bind (coverLoopAux cfg env t 5 0 none env.cache) fun cex =>
        match cex with
        | .finished => .ok { st with returncode := 0 }
        | .fsError => .ok { st with returncode := 1, error := some errFilesystem }

/-! Scheduler and top level (Savify.download, lines 123-244) -/

/-- The exceptions query resolution can raise. -/
inductive QueryErr where
  | connectionError
  | urlError
  | unsupported
  deriving DecidableEq, Repr

/-- Result of query resolution, which is performed by the external metadata
provider client: a queue, or one of the exceptions the code distinguishes. -/
inductive ParseRes where
  | ok (queue : List Track)
  | raise (e : QueryErr)
  deriving DecidableEq, Repr

/-- How a whole download invocation can abort. -/
inductive RunErr where
  | internetConnection
  | uncaught (e : QueryErr)
  | py (e : PyErr)
  deriving DecidableEq, Repr

/-- Observable result of one download invocation: the per-track outcome
sequence, or an abort. -/
inductive RunOut where
  | outcomes (jobs : List Status)
  | aborted (e : RunErr)
  deriving DecidableEq, Repr

/-- Line 135: the one-time confidence-interval pass over the queue, storing
the argument multiplied by 100. -/
def setCI (ci : ℚ) (t : Track) : Track :=
  { t with confidence_interval := qmul ci (qn 100) }

/-- Savify.download up to the outcome collection, lines 123-149.  The
except clause of line 127 is `except A or B`, which in Python evaluates
`A or B` to A, so only the requests ConnectionError is converted to
InternetConnectionError; a URLError propagates unconverted.  An empty queue
returns early with no outcomes.  Otherwise every track gets the
confidence interval stored and the pool maps the per-track acquisition over
the queue in order. -/
def downloadRun (cfg : Config) (envOf : Track → Env) (parsed : ParseRes)
    (ci : ℚ) : RunOut :=
  match parsed with
  | .raise .connectionError => .aborted .internetConnection
  | .raise e => .aborted (.uncaught e)
  | .ok queue =>
    if queue.length = 0 then .outcomes []
    else
      let queue2 := queue.map (setCI ci)
      match mapRes (fun t => downloadTrack cfg (envOf t) t) queue2 with
      | .ok jobs => .outcomes jobs
      | .err e => .aborted (.py e)

/-! Reporter: album consolidation (Savify.download, lines 184-228) -/

/-- One line of the missing-track listing of an incomplete album. -/
structure FailLine where
  number : Int
  name : Str
  reason : PyMsg
  deriving DecidableEq, Repr

/-- One album of the completion report: the data content of the passString
or failString contribution of lines 207-217. -/
inductive AlbumEntry where
  | complete (album : Str) (passCount : Nat) (declared : Int)
  | incomplete (album : Str) (passCount : Nat) (declared : Int)
      (missing : List FailLine)
  deriving DecidableEq, Repr

/-- Is the album marked COMPLETE. -/
def AlbumEntry.isComplete : AlbumEntry → Bool
  | .complete _ _ _ => true
  | _ => false

/-- Lines 188-192: group the queue by album name, insertion-ordered as a
Python dict is. -/
def addToAlbums (acc : List (Str × List Track)) (t : Track) :
    List (Str × List Track) :=
  if acc.any fun p => decide (p.1 = t.album_name) then
    acc.map fun p => if p.1 = t.album_name then (p.1, p.2 ++ [t]) else p
  else acc ++ [(t.album_name, [t])]

/-- The insertion-ordered album grouping. -/
def groupAlbums (queue : List Track) : List (Str × List Track) :=
  queue.foldl addToAlbums []

/-- Ascending order on track number: the sort key of line 213. -/
def numAsc (a b : Track × Str) : Prop := a.1.track_number ≤ b.1.track_number

instance : DecidableRel numAsc := fun a b =>
  inferInstanceAs (Decidable (a.1.track_number ≤ b.1.track_number))

instance : IsTotal (Track × Str) numAsc :=
  ⟨fun a b => le_total a.1.track_number b.1.track_number⟩

instance : IsTrans (Track × Str) numAsc :=
  ⟨fun _ _ _ h1 h2 => le_trans h1 h2⟩

/-- The job lookup of line 215: render every failed job, filter by the
rendered track, take the first (IndexError when none matches), read its
error entry (KeyError when absent, as on a job dict no failure path
filled). -/
def reasonOf (failedWithStr : List (Status × Str)) (s : Str) : Res PyMsg :=
  match failedWithStr.filter fun p => decide (p.2 = s) with
  | [] => .err .indexError
  | j :: _ =>
    match j.1.error with
    | some m => .ok m
    | none => .err .keyError

/-- The incomplete-album branch of lines 209-224: pick the declared count
from the first passing track, or the first failing one; sort the failing
tracks by track number (a stable sort, as in Python); list each with the
reason of its failed job; when incomplete-album removal is requested the
source additionally indexes the sorted failing list and looks its job up
before the swallowed rmtree, which raises IndexError when the album has no
failing track. -/
def incompleteEntry (failedJobs : List Status) (removeFlag : Bool) (album : Str)
    (passTracks : List Track) (failPairs : List (Track × Str)) : Res AlbumEntry :=
  Res.bind
    (if passTracks.length > 0 then pyIndex passTracks 0
     else Res.bind (pyIndex failPairs 0) fun p => .ok p.1) fun albumTrack =>
  let sortedFails := List.insertionSort numAsc failPairs
  Res.bind (mapRes (fun j => Res.bind (Track.str j.track) fun s => .ok (j, s))
      failedJobs) fun failedWithStr =>
  Res.bind (mapRes (fun p => Res.bind (reasonOf failedWithStr p.2) fun r =>
      .ok (⟨p.1.track_number, p.1.name, r⟩ : FailLine)) sortedFails) fun missing =>
  if removeFlag then
    Res.bind (pyIndex sortedFails 0) fun f0 =>
    Res.bind (match failedWithStr.filter fun p => decide (p.2 = f0.2) with
      | [] => Res.err .indexError
      | j :: _ => Res.ok j) fun _job =>
    .ok (.incomplete album passTracks.length albumTrack.album_track_count missing)
  else
    .ok (.incomplete album passTracks.length albumTrack.album_track_count missing)

/-- The branch of lines 207-211 on the partitioned album: COMPLETE exactly
when there is at least one passing track and the passing count equals the
declared track count read from the first passing track; every other album
goes through the incomplete branch. -/
def albumEntryCore (failedJobs : List Status) (removeFlag : Bool) (album : Str)
    (passTracks : List Track) (failPairs : List (Track × Str)) : Res AlbumEntry :=
  match passTracks with
  | p0 :: prest =>
    if (((p0 :: prest).length : Nat) : Int) = p0.album_track_count then
      .ok (.complete album (p0 :: prest).length p0.album_track_count)
    else incompleteEntry failedJobs removeFlag album (p0 :: prest) failPairs
  | [] => incompleteEntry failedJobs removeFlag album [] failPairs

/-- Lines 199-224 for one album: partition its tracks by whether their
rendering occurs among the renderings of the successful jobs, then apply
the completeness branch. -/
def albumEntry (passJobs : List Str) (failedJobs : List Status)
    (removeFlag : Bool) (album : Str) (tracks : List Track) : Res AlbumEntry :=
  Res.bind (mapRes (fun t => Res.bind (Track.str t) fun s => .ok (t, s)) tracks)
    fun withStr =>
  albumEntryCore failedJobs removeFlag album
    ((withStr.filter fun p => decide (p.2 ∈ passJobs)).map Prod.fst)
    (withStr.filter fun p => decide (p.2 ∉ passJobs))

/-- Lines 184-228: split the jobs into failed and successful by returncode,
render the successful tracks, and build one report entry per album group. -/
def consolidate (queue : List Track) (jobs : List Status) (removeFlag : Bool) :
    Res (List AlbumEntry) :=
  let failedJobs := jobs.filter fun j => decide (j.returncode ≠ 0)
  let successJobs := jobs.filter fun j => decide (j.returncode = 0)
  Res.bind (mapRes (fun j => Track.str j.track) successJobs) fun passJobs =>
  mapRes (fun p => albumEntry passJobs failedJobs removeFlag p.1 p.2)
    (groupAlbums queue)

/-! General lemmas about the embedding combinators -/

theorem mapRes_eq_map {α β : Type} {f : α → Res β} {g : α → β} :
    ∀ {l : List α}, (∀ x ∈ l, f x = .ok (g x)) → mapRes f l = .ok (l.map g)
  | [], _ => rfl
  | x :: xs, h => by
    have hx := h x (by simp)
    have hxs := mapRes_eq_map (f := f) (g := g) (l := xs)
      (fun y hy => h y (by simp [hy]))
    simp [mapRes, hx, hxs]

theorem mapRes_ok_forall {α β : Type} {f : α → Res β} {P : α → β → Prop} :
    ∀ {l : List α}, (∀ x ∈ l, ∃ y, f x = .ok y ∧ P x y) →
      ∃ ys, mapRes f l = .ok ys ∧ ys.length = l.length ∧
        ∀ i (h1 : i < l.length) (h2 : i < ys.length),
          P (l.get ⟨i, h1⟩) (ys.get ⟨i, h2⟩)
  | [], _ => ⟨[], rfl, rfl, fun i h1 => absurd h1 (Nat.not_lt_zero i)⟩
  | x :: xs, h => by
    obtain ⟨y, hy, hP⟩ := h x (by simp)
    obtain ⟨ys, hys, hlen, hall⟩ :=
      mapRes_ok_forall (f := f) (P := P) (l := xs)
        (fun z hz => h z (by simp [hz]))
    refine ⟨y :: ys, by simp [mapRes, hy, hys], by simp [hlen], ?_⟩
    intro i h1 h2
    cases i with
    | zero => simpa using hP
    | succ n => simpa using hall n (by simpa using h1) (by simpa using h2)

theorem insertionSort_ne_nil {α : Type} {r : α → α → Prop} [DecidableRel r]
    {l : List α} (h : l ≠ []) : List.insertionSort r l ≠ [] := by
  intro he
  have hp := List.perm_insertionSort r l
  rw [he] at hp
  exact h (hp.symm.eq_nil)

theorem head_max_insertionSort {α : Type} {r : α → α → Prop} [DecidableRel r]
    [IsTotal α r] [IsTrans α r] {l : List α} {b : α} {rest : List α}
    (h : List.insertionSort r l = b :: rest) : b ∈ l ∧ ∀ y ∈ l, r b y := by
  have hp := List.perm_insertionSort r l
  rw [h] at hp
  have hs := List.sorted_insertionSort r l
  rw [h, List.sorted_cons] at hs
  constructor
  · exact hp.mem_iff.mp (by simp)
  · intro y hy
    have : y ∈ b :: rest := hp.symm.mem_iff.mp hy
    rcases List.mem_cons.mp this with rfl | hmem
    · rcases IsTotal.total (r := r) y y with hr | hr <;> exact hr
    · exact hs.1 y hmem

theorem qn_eq_zero_iff {n : Nat} : qn n = 0 ↔ n = 0 := by
  rw [qn_eq]
  exact_mod_cast Nat.cast_eq_zero (R := ℚ)

theorem pyDiv_ok_of {a b : ℚ} (hb : b ≠ 0) : pyDiv a b = .ok (qdiv a b) := by
  simp [pyDiv, hb]

theorem joinStr_cons (s : Str) (l : List Str) :
    joinStr (s :: l) = s ++ joinStr l := rfl

theorem kwMatchesOf_le (title : Str) :
    ∀ (ws : List Str), kwMatchesOf ws title ≤ (joinStr ws).length
  | [] => Nat.le_refl 0
  | w :: ws => by
    have ih := kwMatchesOf_le title ws
    simp only [kwMatchesOf, joinStr_cons, List.length_append]
    split
    · omega
    · omega

theorem kwMatchesOf_eq_of_all {title : Str} :
    ∀ {ws : List Str}, (∀ w ∈ ws, strIn (upperStr w) (upperStr title) = true) →
      kwMatchesOf ws title = (joinStr ws).length
  | [], _ => rfl
  | w :: ws, h => by
    have hw := h w (by simp)
    have ih : kwMatchesOf ws title = (joinStr ws).length :=
      kwMatchesOf_eq_of_all (fun y hy => h y (by simp [hy]))
    simp [kwMatchesOf, hw, ih, joinStr_cons]

theorem length_le_joinStr {w : Str} :
    ∀ {ws : List Str}, w ∈ ws → w.length ≤ (joinStr ws).length := by
  intro ws
  induction ws with
  | nil => intro h; cases h
  | cons x xs ih =>
    intro h
    rcases List.mem_cons.mp h with rfl | hmem
    · simp [joinStr_cons]
    · have := ih hmem
      simp only [joinStr_cons, List.length_append]
      omega

/-! Matcher lemmas -/

theorem qn_hundred : qn 100 = (100 : ℚ) := by decide

theorem pyRound2_hundred : pyRound2 (100 : ℚ) = 100 := by decide

/-- A quotient of keyword-match characters over total keyword characters is
at most one. -/
theorem ratio_le_one {kw len : Nat} (hk : kw ≤ len) (hl : len ≠ 0) :
    ((kw : ℚ)) / ((len : ℚ)) ≤ 1 := by
  have hlp : (0 : ℚ) < (len : ℚ) := by exact_mod_cast Nat.pos_of_ne_zero hl
  rw [div_le_one hlp]
  exact_mod_cast hk

theorem preBoost_inv {t : Track} {v : Video} {c r : ℚ}
    (h : preBoost t v = .ok (c, r)) :
    ∃ conf0 confP,
      (joinStr (trackNameSplit t.name)).length ≠ 0 ∧
      v.fulltitle.length ≠ 0 ∧
      (joinStr (trackNameSplitWithPunc t.name)).length ≠ 0 ∧
      conf0 = ((kwMatchesOf (trackNameSplit t.name) v.fulltitle : ℚ)) /
        (((joinStr (trackNameSplit t.name)).length : ℚ)) ∧
      confP = ((kwMatchesOf (trackNameSplitWithPunc t.name) v.fulltitle : ℚ)) /
        (((joinStr (trackNameSplitWithPunc t.name)).length : ℚ)) ∧
      r = (((joinStr (trackNameSplit t.name)).length : ℚ)) /
        ((v.fulltitle.length : ℚ)) ∧
      c = if conf0 < confP then confP else conf0 := by
  unfold preBoost at h
  obtain ⟨conf0, h0, h⟩ := Res.bind_eq_ok.mp h
  obtain ⟨rev, h1, h⟩ := Res.bind_eq_ok.mp h
  obtain ⟨confP, h2, h⟩ := Res.bind_eq_ok.mp h
  obtain ⟨hd0, he0⟩ := pyDiv_ok_iff.mp h0
  obtain ⟨hd1, he1⟩ := pyDiv_ok_iff.mp h1
  obtain ⟨hd2, he2⟩ := pyDiv_ok_iff.mp h2
  injection h with h
  injection h with hc hr
  refine ⟨conf0, confP, ?_, ?_, ?_, ?_, ?_, ?_, ?_⟩
  · intro hz; exact hd0 (by rw [hz]; decide)
  · intro hz; exact hd1 (by rw [hz]; decide)
  · intro hz; exact hd2 (by rw [hz]; decide)
  · rw [he0, qn_eq, qn_eq]
  · rw [he2, qn_eq, qn_eq]
  · rw [← hr, he1, qn_eq, qn_eq]
  · exact hc.symm

/-- The pre-boost confidence is a fraction never exceeding one. -/
theorem preBoost_fst_le_one {t : Track} {v : Video} {c r : ℚ}
    (h : preBoost t v = .ok (c, r)) : c ≤ 1 := by
  obtain ⟨conf0, confP, hj, _, hjP, hc0, hcP, _, hc⟩ := preBoost_inv h
  have h0 : conf0 ≤ 1 := by
    rw [hc0]; exact ratio_le_one (kwMatchesOf_le _ _) hj
  have hP : confP ≤ 1 := by
    rw [hcP]; exact ratio_le_one (kwMatchesOf_le _ _) hjP
  rw [hc]
  split <;> assumption

/-- Totality of the per-candidate scoring under non-degenerate inputs. -/
theorem scoreVideo_ok {t : Track} {v : Video}
    (hart : t.artists ≠ [])
    (h2 : (joinStr (trackNameSplit t.name)).length ≠ 0)
    (h3 : (joinStr (trackNameSplitWithPunc t.name)).length ≠ 0)
    (h4 : v.fulltitle.length ≠ 0) :
    ∃ e, scoreVideo t v = .ok e := by
  have hq2 : qn (joinStr (trackNameSplit t.name)).length ≠ 0 :=
    fun hz => h2 (qn_eq_zero_iff.mp hz)
  have hq3 : qn (joinStr (trackNameSplitWithPunc t.name)).length ≠ 0 :=
    fun hz => h3 (qn_eq_zero_iff.mp hz)
  have hq4 : qn v.fulltitle.length ≠ 0 :=
    fun hz => h4 (qn_eq_zero_iff.mp hz)
  obtain ⟨a0, rest, ha⟩ : ∃ a0 rest, t.artists = a0 :: rest := by
    cases ht : t.artists with
    | nil => exact absurd ht hart
    | cons a r => exact ⟨a, r, rfl⟩
  have hden : ∀ al : Nat, qn ((joinStr (trackNameSplit t.name)).length + al) ≠ 0 := by
    intro al hz
    have := qn_eq_zero_iff.mp hz
    omega
  have hboost : ∀ c1 : ℚ, ∃ c2, boostPass t v c1 = .ok c2 := by
    intro c1
    simp only [boostPass, ha, pyIndex_cons_zero, Res.bind_ok]
    rw [pyDiv_ok_of (hden _), Res.bind_ok]
    exact ⟨_, rfl⟩
  have hpre : ∃ pr, preBoost t v = .ok pr := by
    unfold preBoost
    rw [pyDiv_ok_of hq2, Res.bind_ok, pyDiv_ok_of hq4, Res.bind_ok,
      pyDiv_ok_of hq3, Res.bind_ok]
    exact ⟨_, rfl⟩
  obtain ⟨pr, hpr⟩ := hpre
  unfold scoreVideo
  rw [hpr, Res.bind_ok]
  split
  · obtain ⟨c2, hc2⟩ := hboost pr.1
    rw [hc2, Res.bind_ok]
    exact ⟨_, rfl⟩
  · rw [Res.bind_ok]
    exact ⟨_, rfl⟩

/-- The selection of lines 368-390 never hits the dead IndexError branch and
always yields a selected or diagnostic candidate on a non-empty matchInfo. -/
theorem selectBest_ok (ci : ℚ) {mi : List MatchEntry} (hne : mi ≠ []) :
    ∃ r, selectBest ci mi = .ok r ∧ r ≠ .noCandidates := by
  cases hs : List.insertionSort confDesc mi with
  | nil => exact absurd hs (insertionSort_ne_nil hne)
  | cons top rest =>
    have hsel : selectBest ci mi =
        (if ci ≤ top.conf then
          if (100 : ℚ) ≤ top.conf then
            match List.insertionSort revDesc
                ((top :: rest).filter fun x => decide ((100 : ℚ) ≤ x.conf)) with
            | b :: _ => .ok (.selected b)
            | [] => .err .indexError
          else .ok (.selected top)
        else .ok (.noMatch top)) := by
      unfold selectBest
      rw [hs]
    rw [hsel]
    split_ifs with h1 h2
    · have htop : top ∈ (top :: rest).filter fun x => decide ((100 : ℚ) ≤ x.conf) := by
        simp [List.mem_filter, h2]
      have hfne : ((top :: rest).filter fun x => decide ((100 : ℚ) ≤ x.conf)) ≠ [] := by
        intro hz
        rw [hz] at htop
        cases htop
      cases hsf : List.insertionSort revDesc
          ((top :: rest).filter fun x => decide ((100 : ℚ) ≤ x.conf)) with
      | nil => exact absurd hsf (insertionSort_ne_nil hfne)
      | cons b brest =>
        exact ⟨.selected b, rfl, by simp⟩
    · exact ⟨.selected top, rfl, by simp⟩
    · exact ⟨.noMatch top, rfl, by simp⟩

/-! Claim theorems: the matcher -/

/-- Concrete input for claim C3: track named "Zzz" by the artist "Adele",
candidate titled "Adele", stored threshold 50 percent. -/
def t3c : Track :=
  ⟨chars "i3", chars "Zzz", [chars "Adele"], chars "Alb", chars "d", 1, 1, 1,
   [], false, .spotify, .track, [], 50⟩

/-- The candidate of claim C3. -/
def v3c : Video := ⟨chars "Adele", chars "v1"⟩

/-- Claim C3 (code_bug): the source intends the secondary boost pass to add
the characters of every artist-name word that occurs in the candidate title,
but the branch of lines 355-362 reuses the loop variable word, which still
holds the last word of the title split, so on this input the boost adds
nothing: the code scores the candidate 0 (stored percentage 0, reverse 60),
while the intended boost score of the spec is 5/8, that is 62.5 percent. -/
theorem stale_word_boost_bug :
    scoreVideo t3c v3c = .ok ⟨chars "Adele", 0, 60, v3c⟩ ∧
    specBoostScore t3c v3c = .ok (Rat.divInt 5 8) ∧
    pyRound2 (qmul (Rat.divInt 5 8) (qn 100)) = Rat.divInt 125 2 := by
  refine ⟨by decide, by decide, by decide⟩

/-- Claim C4 (confirmed): when every keyword of the normalised track title
occurs in the candidate title and the candidate title carries no characters
beyond the keyword characters (its length equals the total keyword length),
the stored confidence and reverse confidence are both exactly 100. -/
theorem perfect_match_scores (t : Track) (v : Video)
    (hart : t.artists ≠ [])
    (hmatch : ∀ w ∈ trackNameSplit t.name,
      strIn (upperStr w) (upperStr v.fulltitle) = true)
    (hjl : (joinStr (trackNameSplit t.name)).length ≠ 0)
    (hjlP : (joinStr (trackNameSplitWithPunc t.name)).length ≠ 0)
    (hlen : v.fulltitle.length = (joinStr (trackNameSplit t.name)).length) :
    scoreVideo t v = .ok ⟨v.fulltitle, 100, 100, v⟩ := by
  have hkw : kwMatchesOf (trackNameSplit t.name) v.fulltitle =
      (joinStr (trackNameSplit t.name)).length := kwMatchesOf_eq_of_all hmatch
  have hq2 : qn (joinStr (trackNameSplit t.name)).length ≠ 0 :=
    fun hz => hjl (qn_eq_zero_iff.mp hz)
  have hq3 : qn (joinStr (trackNameSplitWithPunc t.name)).length ≠ 0 :=
    fun hz => hjlP (qn_eq_zero_iff.mp hz)
  have hq4 : qn v.fulltitle.length ≠ 0 := by rw [hlen]; exact hq2
  have hjlq : (((joinStr (trackNameSplit t.name)).length : ℚ)) ≠ 0 := by
    exact_mod_cast hjl
  have hconf0 : qdiv (qn (kwMatchesOf (trackNameSplit t.name) v.fulltitle))
      (qn (joinStr (trackNameSplit t.name)).length) = 1 := by
    rw [hkw, qdiv_eq, qn_eq, div_self hjlq]
  have hrev : qdiv (qn (joinStr (trackNameSplit t.name)).length)
      (qn v.fulltitle.length) = 1 := by
    rw [hlen, qdiv_eq, qn_eq, div_self hjlq]
  have hconfP_le : qdiv (qn (kwMatchesOf (trackNameSplitWithPunc t.name) v.fulltitle))
      (qn (joinStr (trackNameSplitWithPunc t.name)).length) ≤ 1 := by
    rw [qdiv_eq, qn_eq, qn_eq]
    exact ratio_le_one (kwMatchesOf_le _ _) hjlP
  have hpre : preBoost t v = .ok (1, 1) := by
    unfold preBoost
    rw [pyDiv_ok_of hq2, Res.bind_ok, pyDiv_ok_of hq4, Res.bind_ok,
      pyDiv_ok_of hq3, Res.bind_ok, hconf0, hrev, if_neg (not_lt.mpr hconfP_le)]
  obtain ⟨a0, arest, ha⟩ : ∃ a0 arest, t.artists = a0 :: arest := by
    cases ht : t.artists with
    | nil => exact absurd ht hart
    | cons a r => exact ⟨a, r, rfl⟩
  have hboost : boostPass t v 1 = .ok 1 := by
    simp only [boostPass, ha, pyIndex_cons_zero, Res.bind_ok]
    have hden : qn ((joinStr (trackNameSplit t.name)).length +
        (joinStr (splitStr (chars " ") a0)).length) ≠ 0 := by
      intro hz
      have := qn_eq_zero_iff.mp hz
      omega
    rw [pyDiv_ok_of hden, Res.bind_ok]
    have hkw2 : (if staleWord t ∈ splitStr (chars " ") a0 then
        if strIn (upperStr (staleWord t)) (upperStr v.fulltitle) = true then
          kwMatchesOf (trackNameSplit t.name) v.fulltitle + (staleWord t).length
        else kwMatchesOf (trackNameSplit t.name) v.fulltitle
      else kwMatchesOf (trackNameSplit t.name) v.fulltitle) ≤
        (joinStr (trackNameSplit t.name)).length +
        (joinStr (splitStr (chars " ") a0)).length := by
      split_ifs with hmem hocc
      · have := length_le_joinStr hmem
        omega
      · omega
      · omega
    have hle : qdiv (qn (if staleWord t ∈ splitStr (chars " ") a0 then
        if strIn (upperStr (staleWord t)) (upperStr v.fulltitle) = true then
          kwMatchesOf (trackNameSplit t.name) v.fulltitle + (staleWord t).length
        else kwMatchesOf (trackNameSplit t.name) v.fulltitle
      else kwMatchesOf (trackNameSplit t.name) v.fulltitle))
        (qn ((joinStr (trackNameSplit t.name)).length +
          (joinStr (splitStr (chars " ") a0)).length)) ≤ 1 := by
      rw [qdiv_eq, qn_eq, qn_eq]
      refine ratio_le_one hkw2 ?_
      intro hz
      omega
    rw [if_neg (not_lt.mpr hle)]
  have hq : qmul (1 : ℚ) (qn 100) = (100 : ℚ) := by
    rw [qmul_eq, qn_hundred, one_mul]
  unfold scoreVideo
  rw [hpre, Res.bind_ok]
  dsimp only
  split
  · rw [hboost, Res.bind_ok, hq, pyRound2_hundred]
  · rw [Res.bind_ok, hq, pyRound2_hundred]

/-- Witness track for claim C4. -/
def t4w : Track :=
  ⟨chars "i4", chars "Hello World", [chars "Adele"], chars "Alb", chars "d",
   1, 1, 1, [], false, .spotify, .track, [], 50⟩

/-- Witness candidate for claim C4: the title is exactly the keyword
characters. -/
def v4w : Video := ⟨chars "HelloWorld", chars "v4"⟩

/-- Witness for claim C4 at a concrete perfect-match input. -/
theorem perfect_match_scores_witness :
    scoreVideo t4w v4w = .ok ⟨chars "HelloWorld", 100, 100, v4w⟩ :=
  perfect_match_scores t4w v4w (by decide) (by decide) (by decide) (by decide)
    (by decide)

/-- Witness track for claim C10. -/
def t10w : Track :=
  ⟨chars "w", chars "Hello", [chars "A"], chars "Al", chars "d", 1, 1, 1,
   [], false, .spotify, .track, [], 0⟩

/-- Claim C10 (confirmed): once download() stores the confidence interval as
the argument times 100, any argument above 1/100 makes the stored threshold
exceed 1, while the pre-boost confidence is a fraction of at most 1, so the
comparison of line 355 sends every candidate of every provider track into
the boost branch, perfect scores included. -/
theorem boost_branch_always_taken (ci : ℚ) (t : Track) (v : Video) (c r : ℚ)
    (hci : 1/100 < ci)
    (h : preBoost (setCI ci t) v = .ok (c, r)) :
    c ≤ 1 ∧ 1 < (setCI ci t).confidence_interval ∧
    c < (setCI ci t).confidence_interval := by
  have hle := preBoost_fst_le_one h
  have hcival : (setCI ci t).confidence_interval = ci * 100 := by
    simp [setCI, qmul_eq, qn_hundred]
  have h1 : (1 : ℚ) < ci * 100 := by linarith
  exact ⟨hle, by rw [hcival]; exact h1, by rw [hcival]; linarith⟩

/-- Witness for claim C10 at a candidate whose pre-boost score is already a
full 100 percent: the boost branch is still entered. -/
theorem boost_branch_always_taken_witness :
    (1 : ℚ)/100 < 1 ∧
    preBoost (setCI 1 t10w) ⟨chars "Hello", chars "v"⟩ = .ok (1, 1) ∧
    ((1 : ℚ) ≤ 1 ∧ 1 < (setCI 1 t10w).confidence_interval ∧
      (1 : ℚ) < (setCI 1 t10w).confidence_interval) :=
  ⟨by norm_num, by decide,
    boost_branch_always_taken 1 t10w ⟨chars "Hello", chars "v"⟩ 1 1
      (by norm_num) (by decide)⟩

/-! Claim theorems: the connectivity handler -/

/-- Configuration used by the claim C6 evaluation (never consulted on the
abort paths). -/
def cfg6 : Config :=
  ⟨chars "mp3", true, 3, [], chars "dl", chars "tmp", fun s => s⟩

/-- Environment used by the claim C6 evaluation (never consulted on the
abort paths). -/
def env6 : Track → Env :=
  fun _ => ⟨true, [], fun _ => false, fun _ => false, .moved, fun _ => none,
    fun _ => false, []⟩

/-- Claim C6 (code_bug): the handler of line 127 reads
except requests.exceptions.ConnectionError or URLError, and Python evaluates
the operand A or B to A, so only a requests ConnectionError becomes the
distinguishable InternetConnectionError; a URLError from query resolution
propagates unconverted.  Both ways the invocation aborts before any track
of a queue is processed (no outcomes exist). -/
theorem url_error_uncaught :
    downloadRun cfg6 env6 (.raise .urlError) 0 = .aborted (.uncaught .urlError) ∧
    downloadRun cfg6 env6 (.raise .urlError) 0 ≠ .aborted .internetConnection ∧
    downloadRun cfg6 env6 (.raise .connectionError) 0 =
      .aborted .internetConnection := by
  refine ⟨rfl, by decide, rfl⟩

/-! Claim theorems: selection policy -/

/-- Claim C5 (confirmed): on a non-empty candidate list, with the threshold
a percentage of at most 100: when some candidate scores at least 100 the
selected one scores at least 100 and maximises reverse confidence among all
such candidates; when no candidate reaches 100 but some reaches the
threshold, the confidence maximum is selected outright; when none reaches
the threshold nothing is selected and the confidence maximum is reported in
the diagnostic. -/
theorem selection_policy (ci : ℚ) (mi : List MatchEntry)
    (hne : mi ≠ []) (hci : ci ≤ 100) :
    ∃ r, selectBest ci mi = .ok r ∧
      ((∃ e ∈ mi, (100 : ℚ) ≤ e.conf) →
        ∃ b, r = .selected b ∧ b ∈ mi ∧ (100 : ℚ) ≤ b.conf ∧
          ∀ y ∈ mi, (100 : ℚ) ≤ y.conf → y.rev ≤ b.rev) ∧
      ((¬ ∃ e ∈ mi, (100 : ℚ) ≤ e.conf) → (∃ e ∈ mi, ci ≤ e.conf) →
        ∃ b, r = .selected b ∧ b ∈ mi ∧ ∀ y ∈ mi, y.conf ≤ b.conf) ∧
      ((¬ ∃ e ∈ mi, ci ≤ e.conf) →
        ∃ b, r = .noMatch b ∧ b ∈ mi ∧ ∀ y ∈ mi, y.conf ≤ b.conf) := by
  cases hs : List.insertionSort confDesc mi with
  | nil => exact absurd hs (insertionSort_ne_nil hne)
  | cons top rest =>
    obtain ⟨htopmem, htopmax⟩ := head_max_insertionSort hs
    have hperm : (top :: rest).Perm mi := by
      have := List.perm_insertionSort confDesc mi
      rw [hs] at this
      exact this
    have hsel : selectBest ci mi =
        (if ci ≤ top.conf then
          if (100 : ℚ) ≤ top.conf then
            match List.insertionSort revDesc
                ((top :: rest).filter fun x => decide ((100 : ℚ) ≤ x.conf)) with
            | b :: _ => .ok (.selected b)
            | [] => .err .indexError
          else .ok (.selected top)
        else .ok (.noMatch top)) := by
      unfold selectBest
      rw [hs]
    rw [hsel]
    split_ifs with h1 h2
    · have htop : top ∈ (top :: rest).filter fun x => decide ((100 : ℚ) ≤ x.conf) := by
        simp [List.mem_filter, h2]
      have hfne : ((top :: rest).filter fun x => decide ((100 : ℚ) ≤ x.conf)) ≠ [] := by
        intro hz
        rw [hz] at htop
        cases htop
      cases hsf : List.insertionSort revDesc
          ((top :: rest).filter fun x => decide ((100 : ℚ) ≤ x.conf)) with
      | nil => exact absurd hsf (insertionSort_ne_nil hfne)
      | cons b brest =>
        obtain ⟨hbmem, hbmax⟩ := head_max_insertionSort hsf
        have hbf := List.mem_filter.mp hbmem
        have hbmi : b ∈ mi := hperm.mem_iff.mp hbf.1
        have hbconf : (100 : ℚ) ≤ b.conf := by simpa using hbf.2
        refine ⟨.selected b, rfl, ?_, ?_, ?_⟩
        · intro _
          refine ⟨b, rfl, hbmi, hbconf, ?_⟩
          intro y hy hy100
          exact hbmax y (List.mem_filter.mpr ⟨hperm.mem_iff.mpr hy, by simpa using hy100⟩)
        · intro hno _
          exact absurd ⟨b, hbmi, hbconf⟩ hno
        · intro hno
          exact absurd ⟨top, hperm.mem_iff.mp (by simp), h1⟩ hno
    · refine ⟨.selected top, rfl, ?_, ?_, ?_⟩
      · rintro ⟨e, hemem, he100⟩
        exact absurd (le_trans he100 (htopmax e hemem)) h2
      · intro _ _
        exact ⟨top, rfl, htopmem, htopmax⟩
      · intro hno
        exact absurd ⟨top, htopmem, h1⟩ hno
    · refine ⟨.noMatch top, rfl, ?_, ?_, ?_⟩
      · rintro ⟨e, hemem, he100⟩
        have : (100 : ℚ) ≤ top.conf := le_trans he100 (htopmax e hemem)
        exact absurd (le_trans hci this) h1
      · rintro - ⟨e, hemem, heci⟩
        exact absurd (le_trans heci (htopmax e hemem)) h1
      · intro _
        exact ⟨top, rfl, htopmem, htopmax⟩

/-- Witness candidates for claim C5: two full-score candidates with
different reverse confidences and one below both bars. -/
def e5a : MatchEntry := ⟨chars "t1", 100, 50, ⟨chars "t1", chars "va"⟩⟩

/-- Second witness candidate for claim C5. -/
def e5b : MatchEntry := ⟨chars "t2", 100, 80, ⟨chars "t2", chars "vb"⟩⟩

/-- Third witness candidate for claim C5. -/
def e5c : MatchEntry := ⟨chars "t3", 95, 10, ⟨chars "t3", chars "vc"⟩⟩

/-- Witness for claim C5 at a concrete candidate list. -/
theorem selection_policy_witness :
    ∃ r, selectBest 90 [e5a, e5b, e5c] = .ok r ∧
      ((∃ e ∈ [e5a, e5b, e5c], (100 : ℚ) ≤ e.conf) →
        ∃ b, r = .selected b ∧ b ∈ [e5a, e5b, e5c] ∧ (100 : ℚ) ≤ b.conf ∧
          ∀ y ∈ [e5a, e5b, e5c], (100 : ℚ) ≤ y.conf → y.rev ≤ b.rev) ∧
      ((¬ ∃ e ∈ [e5a, e5b, e5c], (100 : ℚ) ≤ e.conf) →
          (∃ e ∈ [e5a, e5b, e5c], (90 : ℚ) ≤ e.conf) →
        ∃ b, r = .selected b ∧ b ∈ [e5a, e5b, e5c] ∧
          ∀ y ∈ [e5a, e5b, e5c], y.conf ≤ b.conf) ∧
      ((¬ ∃ e ∈ [e5a, e5b, e5c], (90 : ℚ) ≤ e.conf) →
        ∃ b, r = .noMatch b ∧ b ∈ [e5a, e5b, e5c] ∧
          ∀ y ∈ [e5a, e5b, e5c], y.conf ≤ b.conf) :=
  selection_policy 90 [e5a, e5b, e5c] (by decide) (by norm_num)

/-! Claim theorems: the skip check -/

theorem buildQuery_ok {t : Track} (hart : t.artists ≠ []) :
    ∃ q, buildQuery t = .ok q := by
  obtain ⟨a0, arest, ha⟩ : ∃ a0 arest, t.artists = a0 :: arest := by
    cases ht : t.artists with
    | nil => exact absurd ht hart
    | cons a r => exact ⟨a, r, rfl⟩
  unfold buildQuery
  by_cases hp : t.platform = .spotify
  · rw [if_pos hp]
    by_cases he : t.track_type = .episode
    · rw [if_pos he, ha, pyIndex_cons_zero, Res.bind_ok]
      exact ⟨_, rfl⟩
    · rw [if_neg he, str_eq_strD hart, Res.bind_ok]
      exact ⟨_, rfl⟩
  · rw [if_neg hp]
    exact ⟨_, rfl⟩

theorem sortDir_ok (cfg : Config) {t : Track} (hart : t.artists ≠ []) :
    ∃ sd, sortDir cfg t = .ok sd := by
  obtain ⟨a0, arest, ha⟩ : ∃ a0 arest, t.artists = a0 :: arest := by
    cases ht : t.artists with
    | nil => exact absurd ht hart
    | cons a r => exact ⟨a, r, rfl⟩
  unfold sortDir
  split_ifs
  · exact ⟨_, rfl⟩
  · rw [ha, pyIndex_cons_zero, Res.bind_ok]
    exact ⟨_, rfl⟩

theorem outputPath_ok (cfg : Config) {t : Track} (hart : t.artists ≠ []) :
    ∃ out, outputPath cfg t = .ok out := by
  obtain ⟨sd, hsd⟩ := sortDir_ok cfg hart
  unfold outputPath
  rw [hsd, Res.bind_ok, str_eq_strD hart, Res.bind_ok]
  exact ⟨_, rfl⟩

/-- Claim C8 (confirmed): when the final output file already exists, the
acquisition returns the success status immediately, and the result does not
depend on any pipeline oracle (search, download, temp check, move,
cover-art fetch, transcode, cache): the whole pipeline is untouched, so a
second acquisition of the same track behaves identically. -/
theorem skip_check_short_circuit (cfg : Config) (env : Env) (t : Track)
    (hart : t.artists ≠ []) (hc : env.checkOutput = true) :
    ∃ out, outputPath cfg t = .ok out ∧
      downloadTrack cfg env t = .ok ⟨t, 0, out, none⟩ ∧
      ∀ env2 : Env, env2.checkOutput = true →
        downloadTrack cfg env2 t = downloadTrack cfg env t := by
  obtain ⟨q, hq⟩ := buildQuery_ok hart
  obtain ⟨out, ho⟩ := outputPath_ok cfg hart
  have hval : ∀ e2 : Env, e2.checkOutput = true →
      downloadTrack cfg e2 t = .ok ⟨t, 0, out, none⟩ := by
    intro e2 h2
    unfold downloadTrack
    rw [hq, Res.bind_ok, ho, Res.bind_ok, h2]
    rfl
  refine ⟨out, ho, hval env hc, ?_⟩
  intro env2 hc2
  rw [hval env hc, hval env2 hc2]

/-- Witness track for claim C8. -/
def t8w : Track :=
  ⟨chars "i8", chars "Hello", [chars "Adele"], chars "Alb", chars "d", 1, 1, 1,
   [], false, .spotify, .track, [], 0⟩

/-- Witness environment for claim C8: the output file exists. -/
def env8 : Env :=
  ⟨true, [], fun _ => true, fun _ => false, .raisePy .fileNotFound,
   fun _ => none, fun _ => true, []⟩

/-- Witness for claim C8 at a concrete track whose output file exists. -/
theorem skip_check_short_circuit_witness :
    ∃ out, outputPath cfg6 t8w = .ok out ∧
      downloadTrack cfg6 env8 t8w = .ok ⟨t8w, 0, out, none⟩ ∧
      ∀ env2 : Env, env2.checkOutput = true →
        downloadTrack cfg6 env2 t8w = downloadTrack cfg6 env8 t8w :=
  skip_check_short_circuit cfg6 env8 t8w (by decide) rfl

/-! Claim theorems: retry exhaustion -/

/-- Track for the claim C2 counterexample. -/
def t2c : Track :=
  ⟨chars "i2", chars "Hello", [chars "B"], chars "Alb", chars "d", 1, 1, 1,
   [], false, .spotify, .track, [], 0⟩

/-- Environment for the claim C2 counterexample: no search results, every
download attempt raises the extraction failure, the temp file never
appears, and moving the missing temp file raises FileNotFoundError. -/
def env2c : Env :=
  ⟨false, [], fun _ => true, fun _ => false, .raisePy .fileNotFound,
   fun _ => none, fun _ => false, []⟩

/-- Configuration for the claim C2 counterexample: retry count 5. -/
def cfg2c : Config :=
  ⟨chars "mp3", true, 5, [], chars "dl", chars "tmp", fun s => s⟩

/-- Counterexample to claim C2 as stated: with the configured retry count 5
and every download attempt raising the transient extraction failure, the
loop performs its 5 capped attempts and then falls through without any
failure outcome; control reaches the move of the never-created temp file,
so no status with the promised error string exists (the call raises). -/
theorem retry_cap_cex :
    dlLoop cfg2c env2c t2c = .ok (.exhausted, 5) ∧
    downloadTrack cfg2c env2c t2c = .err .fileNotFound ∧
    ¬ ∃ s : Status, downloadTrack cfg2c env2c t2c = .ok s := by
  have h : downloadTrack cfg2c env2c t2c = .err .fileNotFound := by decide
  refine ⟨by decide, h, ?_⟩
  rintro ⟨s, hs⟩
  rw [h] at hs
  cases hs

theorem dlLoopAux_fail_now {cfg : Config} {env : Env} {t : Track}
    (hsearch : searchPhase env t = .ok .proceed)
    (hdl : ∀ k, env.dlRaises k = true)
    (r attempt : Nat) (hle : cfg.retry ≤ (attempt : Int)) :
    dlLoopAux cfg env t (r+1) attempt = .ok (.dlFailed, attempt + 1) := by
  have hlt : cfg.retry < ((attempt + 1 : Nat) : Int) := by
    push_cast
    omega
  simp only [dlLoopAux, hsearch, Res.bind_ok, hdl (attempt + 1), if_true]
  rw [if_pos hlt]

theorem dlLoopAux_fail_chain (cfg : Config) {env : Env} {t : Track}
    (hsearch : searchPhase env t = .ok .proceed)
    (hdl : ∀ k, env.dlRaises k = true) :
    ∀ n attempt, attempt + n = cfg.retry.toNat → attempt + n < 5 →
      dlLoopAux cfg env t (5 - attempt) attempt =
        .ok (.dlFailed, cfg.retry.toNat + 1) := by
  intro n
  induction n with
  | zero =>
    intro attempt hsum hlt
    have hle : cfg.retry ≤ (attempt : Int) := by omega
    have h5 : 0 < 5 - attempt := by omega
    obtain ⟨r, hr⟩ : ∃ r, 5 - attempt = r + 1 := by
      exact ⟨5 - attempt - 1, by omega⟩
    rw [hr, dlLoopAux_fail_now hsearch hdl r attempt hle]
    have : attempt + 1 = cfg.retry.toNat + 1 := by omega
    rw [this]
  | succ n ih =>
    intro attempt hsum hlt
    have hpos : 0 < cfg.retry.toNat := by omega
    have hnotlt : ¬ cfg.retry < ((attempt + 1 : Nat) : Int) := by
      push_cast
      omega
    obtain ⟨r, hr⟩ : ∃ r, 5 - attempt = r + 1 := by
      exact ⟨5 - attempt - 1, by omega⟩
    rw [hr]
    simp only [dlLoopAux, hsearch, Res.bind_ok, hdl (attempt + 1), if_true]
    rw [if_neg hnotlt]
    have hrr : r = 5 - (attempt + 1) := by omega
    rw [hrr]
    exact ih (attempt + 1) (by omega) (by omega)

/-- Claim C2 amended: when the configured retry count is at most 4, a track
whose search always proceeds and whose every download attempt raises the
transient extraction failure ends in the failure outcome with error
"Failed to download song." after max(retry+1, 1) attempts, within the
ceiling of 5.  The counterexample retry_cap_cex shows the claim fails for a
retry count of 5 or more: the loop still stops after 5 attempts, but exits
without that failure outcome and falls through to the move phase. -/
theorem retry_exhaustion_amended (cfg : Config) (env : Env) (t : Track)
    (hart : t.artists ≠ [])
    (hskip : env.checkOutput = false)
    (hspot : t.platform = .spotify)
    (hsearch : searchPhase env t = .ok .proceed)
    (hdl : ∀ k, env.dlRaises k = true)
    (hr : cfg.retry ≤ 4) :
    dlLoop cfg env t = .ok (.dlFailed, cfg.retry.toNat + 1) ∧
    cfg.retry.toNat + 1 ≤ 5 ∧
    ∃ out, downloadTrack cfg env t = .ok ⟨t, 1, out, some errFailedDownload⟩ := by
  have hloop : dlLoop cfg env t = .ok (.dlFailed, cfg.retry.toNat + 1) := by
    have := dlLoopAux_fail_chain cfg hsearch hdl cfg.retry.toNat 0
      (by omega) (by omega)
    simpa [dlLoop] using this
  refine ⟨hloop, by omega, ?_⟩
  obtain ⟨q, hq⟩ := buildQuery_ok hart
  obtain ⟨out, ho⟩ := outputPath_ok cfg hart
  refine ⟨out, ?_⟩
  unfold downloadTrack
  rw [hq, Res.bind_ok, ho, Res.bind_ok, hskip]
  simp only [Bool.false_eq_true, if_false]
  rw [hloop, Res.bind_ok]

/-- Witness track for the amended claim C2. -/
def t2w : Track :=
  ⟨chars "i2w", chars "Hello", [chars "B"], chars "Alb", chars "d", 1, 1, 1,
   [], false, .spotify, .track, [], 0⟩

/-- Witness environment for the amended claim C2. -/
def env2w : Env :=
  ⟨false, [], fun _ => true, fun _ => false, .moved, fun _ => none,
   fun _ => false, []⟩

/-- Witness configuration for the amended claim C2: retry count 3. -/
def cfg2w : Config :=
  ⟨chars "mp3", true, 3, [], chars "dl", chars "tmp", fun s => s⟩

/-- Witness for the amended claim C2: with retry 3 the failure outcome
appears after exactly 4 attempts. -/
theorem retry_exhaustion_amended_witness :
    dlLoop cfg2w env2w t2w = .ok (.dlFailed, cfg2w.retry.toNat + 1) ∧
    cfg2w.retry.toNat + 1 ≤ 5 ∧
    ∃ out, downloadTrack cfg2w env2w t2w =
      .ok ⟨t2w, 1, out, some errFailedDownload⟩ :=
  retry_exhaustion_amended cfg2w env2w t2w (by decide) rfl (by decide) (by decide)
    (fun _ => rfl) (by decide)

/-! Claim theorems: per-track error containment -/

/-- Boolean observer for a non-raising result. -/
def Res.isOkB {α : Type} : Res α → Bool
  | .ok _ => true
  | .err _ => false

theorem Res.exists_ok_iff {α : Type} {x : Res α} :
    (∃ a, x = .ok a) ↔ x.isOkB = true := by
  cases x with
  | ok a => simp [Res.isOkB]
  | err e => simp [Res.isOkB]

theorem searchPhase_ok {env : Env} {t : Track}
    (hart : t.artists ≠ [])
    (h2 : (joinStr (trackNameSplit t.name)).length ≠ 0)
    (h3 : (joinStr (trackNameSplitWithPunc t.name)).length ≠ 0)
    (h4 : ∀ v ∈ env.search, v.fulltitle.length ≠ 0) :
    ∃ so, searchPhase env t = .ok so := by
  unfold searchPhase
  by_cases hp : t.platform = .spotify
  · rw [if_pos hp]
    by_cases hn : env.search.length > 0
    · rw [if_pos hn]
      obtain ⟨mi, hmi, hlen, -⟩ := mapRes_ok_forall (P := fun _ _ => True)
        (l := env.search) (fun v hv => by
          obtain ⟨e, he⟩ := scoreVideo_ok hart h2 h3 (h4 v hv)
          exact ⟨e, he, trivial⟩)
      rw [hmi, Res.bind_ok]
      have hmine : mi ≠ [] := by
        intro hz
        rw [hz] at hlen
        simp at hlen
        omega
      obtain ⟨r, hrsel, hrne⟩ := selectBest_ok t.confidence_interval hmine
      rw [hrsel, Res.bind_ok]
      cases r with
      | selected b => exact ⟨_, rfl⟩
      | noMatch b => exact ⟨_, rfl⟩
      | noCandidates => exact absurd rfl hrne
    · rw [if_neg hn]
      exact ⟨_, rfl⟩
  · rw [if_neg hp]
    exact ⟨_, rfl⟩

theorem dlLoopAux_ok (cfg : Config) {env : Env} {t : Track}
    (hso : ∃ so, searchPhase env t = .ok so) :
    ∀ remaining attempt, ∃ x, dlLoopAux cfg env t remaining attempt = .ok x := by
  obtain ⟨so, hso⟩ := hso
  intro remaining
  induction remaining with
  | zero => intro attempt; exact ⟨_, rfl⟩
  | succ r ih =>
    intro attempt
    simp only [dlLoopAux, hso, Res.bind_ok]
    cases so with
    | noMatchFound best => exact ⟨_, rfl⟩
    | proceed =>
      by_cases hd : env.dlRaises (attempt + 1) = true
      · rw [if_pos hd]
        by_cases hlt : cfg.retry < ((attempt + 1 : Nat) : Int)
        · rw [if_pos hlt]
          exact ⟨_, rfl⟩
        · rw [if_neg hlt]
          exact ih (attempt + 1)
      · rw [if_neg hd]
        by_cases ht : env.tempCheck (attempt + 1) = true
        · rw [if_pos ht]
          exact ⟨_, rfl⟩
        · rw [if_neg ht]
          exact ih (attempt + 1)

theorem coverLoopAux_ok_some {cfg : Config} {env : Env} {t : Track}
    (hart : t.artists ≠ [])
    (hmv : env.moveRes = .moved ∨ env.moveRes = .shutilError) :
    ∀ remaining attempt c cache2, ∃ x,
      coverLoopAux cfg env t remaining attempt (some c) cache2 = .ok x := by
  obtain ⟨a0, arest, ha⟩ : ∃ a0 arest, t.artists = a0 :: arest := by
    cases ht : t.artists with
    | nil => exact absurd ht hart
    | cons a r => exact ⟨a, r, rfl⟩
  intro remaining
  induction remaining with
  | zero => intro attempt c cache2; exact ⟨_, rfl⟩
  | succ r ih =>
    intro attempt c cache2
    simp only [coverLoopAux, ha, pyIndex_cons_zero, Res.bind_ok]
    have hstep : ∀ (v : Str) (cache3 : List (Str × Str)), ∃ x,
        (if env.ffmpegRaises (attempt + 1) = true then
          if cfg.retry < ((attempt + 1 : Nat) : Int) then
            match env.moveRes with
            | .moved => Res.ok CoverExit.finished
            | .shutilError => Res.ok CoverExit.fsError
            | .raisePy e => Res.err e
          else coverLoopAux cfg env t r (attempt + 1) (some v) cache3
        else Res.ok CoverExit.finished) = .ok x := by
      intro v cache3
      by_cases hff : env.ffmpegRaises (attempt + 1) = true
      · rw [if_pos hff]
        by_cases hlt : cfg.retry < ((attempt + 1 : Nat) : Int)
        · rw [if_pos hlt]
          rcases hmv with hm | hm <;> rw [hm] <;> exact ⟨_, rfl⟩
        · rw [if_neg hlt]
          exact ih (attempt + 1) v cache3
      · rw [if_neg hff]
        exact ⟨_, rfl⟩
    cases hl : lookupCache cache2 (t.album_name ++ chars " - " ++ a0) with
    | some v2 => exact hstep v2 cache2
    | none =>
      cases hf : env.coverFetch (attempt + 1) with
      | some p => exact hstep p (cache2 ++ [(t.album_name ++ chars " - " ++ a0, p)])
      | none => exact hstep c cache2

theorem coverLoopAux_ok_start {cfg : Config} {env : Env} {t : Track}
    (hart : t.artists ≠ [])
    (hmv : env.moveRes = .moved ∨ env.moveRes = .shutilError)
    (hcov : lookupCache env.cache
        (t.album_name ++ chars " - " ++ t.artists.headD []) ≠ none ∨
      env.coverFetch 1 ≠ none) :
    ∀ r : Nat, ∃ x, coverLoopAux cfg env t (r + 1) 0 none env.cache = .ok x := by
  obtain ⟨a0, arest, ha⟩ : ∃ a0 arest, t.artists = a0 :: arest := by
    cases ht : t.artists with
    | nil => exact absurd ht hart
    | cons a r => exact ⟨a, r, rfl⟩
  have hhead : t.artists.headD [] = a0 := by rw [ha]; rfl
  rw [hhead] at hcov
  intro r
  simp only [coverLoopAux, ha, pyIndex_cons_zero, Res.bind_ok]
  have hstep : ∀ (v : Str) (cache3 : List (Str × Str)), ∃ x,
      (if env.ffmpegRaises (0 + 1) = true then
        if cfg.retry < ((0 + 1 : Nat) : Int) then
          match env.moveRes with
          | .moved => Res.ok CoverExit.finished
          | .shutilError => Res.ok CoverExit.fsError
          | .raisePy e => Res.err e
        else coverLoopAux cfg env t r (0 + 1) (some v) cache3
      else Res.ok CoverExit.finished) = .ok x := by
    intro v cache3
    by_cases hff : env.ffmpegRaises (0 + 1) = true
    · rw [if_pos hff]
      by_cases hlt : cfg.retry < ((0 + 1 : Nat) : Int)
      · rw [if_pos hlt]
        rcases hmv with hm | hm <;> rw [hm] <;> exact ⟨_, rfl⟩
      · rw [if_neg hlt]
        exact coverLoopAux_ok_some hart hmv r (0 + 1) v cache3
    · rw [if_neg hff]
      exact ⟨_, rfl⟩
  cases hl : lookupCache env.cache (t.album_name ++ chars " - " ++ a0) with
  | some v2 => exact hstep v2 env.cache
  | none =>
    cases hf : env.coverFetch (0 + 1) with
    | some p => exact hstep p (env.cache ++ [(t.album_name ++ chars " - " ++ a0, p)])
    | none =>
      rw [hl] at hcov
      rcases hcov with hc | hc
      · exact absurd rfl hc
      · rw [show (1 : Nat) = 0 + 1 from rfl] at hc
        exact absurd hf hc

/-- Every result record of the per-track acquisition references the track it
was called for. -/
theorem downloadTrack_track_eq {cfg : Config} {env : Env} {t : Track} {s : Status}
    (h : downloadTrack cfg env t = .ok s) : s.track = t := by
  unfold downloadTrack at h
  obtain ⟨q, hq, h⟩ := Res.bind_eq_ok.mp h
  obtain ⟨out, ho, h⟩ := Res.bind_eq_ok.mp h
  by_cases hc : env.checkOutput = true
  · rw [if_pos hc] at h
    injection h with h
    rw [← h]
  · rw [if_neg hc] at h
    obtain ⟨ex, hex, h⟩ := Res.bind_eq_ok.mp h
    rcases ex with ⟨exo, k⟩
    cases exo with
    | noMatchFound b =>
      injection h with h
      rw [← h]
    | dlFailed =>
      injection h with h
      rw [← h]
    | gotFile =>
      by_cases hfmt : (cfg.download_format ≠ formatMP3 || cfg.skip_cover_art) = true
      · rw [if_pos hfmt] at h
        cases hm : env.moveRes with
        | moved => rw [hm] at h; injection h with h; rw [← h]
        | shutilError => rw [hm] at h; injection h with h; rw [← h]
        | raisePy e => rw [hm] at h; cases h
      · rw [if_neg hfmt] at h
        obtain ⟨cex, hcex, h⟩ := Res.bind_eq_ok.mp h
        cases cex with
        | finished => injection h with h; rw [← h]
        | fsError => injection h with h; rw [← h]
    | exhausted =>
      by_cases hfmt : (cfg.download_format ≠ formatMP3 || cfg.skip_cover_art) = true
      · rw [if_pos hfmt] at h
        cases hm : env.moveRes with
        | moved => rw [hm] at h; injection h with h; rw [← h]
        | shutilError => rw [hm] at h; injection h with h; rw [← h]
        | raisePy e => rw [hm] at h; cases h
      · rw [if_neg hfmt] at h
        obtain ⟨cex, hcex, h⟩ := Res.bind_eq_ok.mp h
        cases cex with
        | finished => injection h with h; rw [← h]
        | fsError => injection h with h; rw [← h]

/-- Track for the claim C7 counterexample: the normalised title is empty. -/
def t7c : Track :=
  ⟨chars "i7", chars "()", [chars "A"], chars "Alb", chars "d", 1, 1, 1,
   [], false, .spotify, .track, [], 0⟩

/-- Environment for the claim C7 counterexample: one search candidate. -/
def env7c : Env :=
  ⟨false, [⟨chars "Title", chars "v1"⟩], fun _ => false, fun _ => false,
   .moved, fun _ => none, fun _ => false, []⟩

/-- Counterexample to claim C7 as stated: on a provider track whose name
consists of a bracketed segment only, the keyword normalisation leaves no
characters, the confidence division of line 343 raises ZeroDivisionError,
and no handler catches it: the acquisition does not return a status. -/
theorem containment_cex :
    downloadTrack cfg6 env7c t7c = .err .zeroDivision ∧
    ¬ ∃ s : Status, downloadTrack cfg6 env7c t7c = .ok s := by
  have h : downloadTrack cfg6 env7c t7c = .err .zeroDivision := by decide
  refine ⟨h, ?_⟩
  rintro ⟨s, hs⟩
  rw [h] at hs
  cases hs

/-- Claim C7 amended: the modelled failure signals (no search match,
extraction failure, transcoder failure, move failure as ShutilError,
cover-art fetch failure once some cover art is available) are all contained
in the returned status, for every oracle behaviour — provided the track has
a primary artist, its normalised title keywords are non-empty, every
candidate title is non-empty, the move signal is one the handler catches,
and, when cover-art embedding is active, the cover art is cached or the
first fetch succeeds.  Outside those provisos a Python runtime error
escapes the acquisition (see the counterexample). -/
theorem containment_amended (cfg : Config) (env : Env) (t : Track)
    (hart : t.artists ≠ [])
    (h2 : (joinStr (trackNameSplit t.name)).length ≠ 0)
    (h3 : (joinStr (trackNameSplitWithPunc t.name)).length ≠ 0)
    (h4 : ∀ v ∈ env.search, v.fulltitle.length ≠ 0)
    (hmv : env.moveRes = .moved ∨ env.moveRes = .shutilError)
    (hcov : cfg.download_format = formatMP3 ∧ cfg.skip_cover_art = false →
      lookupCache env.cache
          (t.album_name ++ chars " - " ++ t.artists.headD []) ≠ none ∨
        env.coverFetch 1 ≠ none) :
    ∃ s, downloadTrack cfg env t = .ok s ∧ s.track = t := by
  obtain ⟨q, hq⟩ := buildQuery_ok hart
  obtain ⟨out, ho⟩ := outputPath_ok cfg hart
  have hmain : ∃ s, downloadTrack cfg env t = .ok s := by
    unfold downloadTrack
    rw [hq, Res.bind_ok, ho, Res.bind_ok]
    by_cases hc : env.checkOutput = true
    · rw [if_pos hc]
      exact ⟨_, rfl⟩
    · rw [if_neg hc]
      obtain ⟨x, hx⟩ := dlLoopAux_ok cfg (searchPhase_ok hart h2 h3 h4) 5 0
      unfold dlLoop
      rw [hx, Res.bind_ok]
      rcases x with ⟨exo, k⟩
      have hpost : ∃ s,
          (if (cfg.download_format ≠ formatMP3 || cfg.skip_cover_art) = true then
            match env.moveRes with
            | .moved => Res.ok (Status.mk t 0 out none)
            | .shutilError => Res.ok (Status.mk t 1 out (some errFilesystem))
            | .raisePy e => Res.err e
          else
            Res.bind (coverLoopAux cfg env t 5 0 none env.cache) fun cex =>
            match cex with
            | .finished => Res.ok (Status.mk t 0 out none)
            | .fsError => Res.ok (Status.mk t 1 out (some errFilesystem))) = Res.ok s := by
        by_cases hfmt : (cfg.download_format ≠ formatMP3 || cfg.skip_cover_art) = true
        · rw [if_pos hfmt]
          rcases hmv with hm | hm <;> rw [hm] <;> exact ⟨_, rfl⟩
        · rw [if_neg hfmt]
          have hcc : cfg.download_format = formatMP3 ∧ cfg.skip_cover_art = false := by
            rcases Bool.not_eq_true _ ▸ hfmt with h
            simp only [Bool.or_eq_true, decide_eq_true_eq, not_or] at hfmt
            push_neg at hfmt
            exact ⟨hfmt.1, by simpa using hfmt.2⟩
          obtain ⟨cex, hcex⟩ := coverLoopAux_ok_start hart hmv (hcov hcc) 4
          rw [show (5 : Nat) = 4 + 1 from rfl, hcex, Res.bind_ok]
          cases cex with
          | finished => exact ⟨_, rfl⟩
          | fsError => exact ⟨_, rfl⟩
      cases exo with
      | noMatchFound b => exact ⟨_, rfl⟩
      | dlFailed => exact ⟨_, rfl⟩
      | gotFile => exact hpost
      | exhausted => exact hpost
  obtain ⟨s, hs⟩ := hmain
  exact ⟨s, hs, downloadTrack_track_eq hs⟩

/-- Witness track for the amended claim C7. -/
def t7w : Track :=
  ⟨chars "i7w", chars "Hello", [chars "Adele"], chars "Alb", chars "d", 1, 1, 1,
   [], false, .spotify, .track, [], 0⟩

/-- Witness environment for the amended claim C7: a transcoder that always
fails, a move that fails with the handled signal, and cover art cached. -/
def env7w : Env :=
  ⟨false, [⟨chars "Hello", chars "v1"⟩], fun _ => false, fun k => k = 1,
   .shutilError, fun _ => none, fun _ => true,
   [(chars "Alb - Adele", chars "cover.jpg")]⟩

/-- Witness configuration for the amended claim C7: MP3 with cover art. -/
def cfg7w : Config :=
  ⟨chars "mp3", false, 3, [], chars "dl", chars "tmp", fun s => s⟩

/-- Witness for the amended claim C7 at a concrete adversarial oracle. -/
theorem containment_amended_witness :
    ∃ s, downloadTrack cfg7w env7w t7w = .ok s ∧ s.track = t7w :=
  containment_amended cfg7w env7w t7w (by decide) (by decide) (by decide)
    (by decide) (Or.inr rfl) (fun _ => by decide)

/-! Claim theorems: one outcome per queued track -/

/-- Track for the claim C1 counterexample. -/
def t1c : Track :=
  ⟨chars "i1", chars "(a)", [chars "B"], chars "Alb", chars "d", 1, 1, 1,
   [], false, .spotify, .track, [], 0⟩

/-- Environment for the claim C1 counterexample. -/
def env1c : Env :=
  ⟨false, [⟨chars "Title", chars "v1"⟩], fun _ => false, fun _ => false,
   .moved, fun _ => none, fun _ => false, []⟩

/-- Counterexample to claim C1 as stated: a queue holding one provider
track whose title normalises to nothing makes the download pass abort with
an escaping ZeroDivisionError — the pass produces no outcome sequence at
all, so no 1:1 mapping exists for this queue. -/
theorem queue_outcome_cex :
    downloadRun cfg6 (fun _ => env1c) (.ok [t1c]) (Rat.divInt 1 2) =
      .aborted (.py .zeroDivision) ∧
    ¬ ∃ jobs, downloadRun cfg6 (fun _ => env1c) (.ok [t1c]) (Rat.divInt 1 2) =
      .outcomes jobs := by
  have h : downloadRun cfg6 (fun _ => env1c) (.ok [t1c]) (Rat.divInt 1 2) =
      .aborted (.py .zeroDivision) := by decide
  refine ⟨h, ?_⟩
  rintro ⟨jobs, hj⟩
  rw [h] at hj
  cases hj

/-- Claim C1 amended: whenever every per-track acquisition of the
confidence-adjusted queue returns a status (no Python runtime error
escapes), the outcome sequence exists, has exactly the length of the queue,
and its i-th record references the i-th queued track. -/
theorem queue_outcomes_amended (cfg : Config) (envOf : Track → Env)
    (queue : List Track) (ci : ℚ)
    (h : ∀ t ∈ queue.map (setCI ci), ∃ s, downloadTrack cfg (envOf t) t = .ok s) :
    ∃ jobs, downloadRun cfg envOf (.ok queue) ci = .outcomes jobs ∧
      jobs.length = queue.length ∧
      ∀ i (h1 : i < queue.length) (h2 : i < jobs.length),
        (jobs.get ⟨i, h2⟩).track = setCI ci (queue.get ⟨i, h1⟩) := by
  by_cases hq : queue.length = 0
  · have hqe : queue = [] := List.length_eq_zero.mp hq
    subst hqe
    refine ⟨[], by simp [downloadRun], rfl, ?_⟩
    intro i h1
    exact absurd h1 (by omega)
  · obtain ⟨jobs, hjobs, hlen, hall⟩ := mapRes_ok_forall
      (f := fun t => downloadTrack cfg (envOf t) t)
      (P := fun t s => s.track = t)
      (l := queue.map (setCI ci))
      (fun t ht => by
        obtain ⟨s, hs⟩ := h t ht
        exact ⟨s, hs, downloadTrack_track_eq hs⟩)
    refine ⟨jobs, ?_, by simpa using hlen, ?_⟩
    · simp only [downloadRun]
      rw [if_neg hq, hjobs]
    · intro i h1 h2
      have hi := hall i (by simpa using h1) h2
      rwa [List.get_map] at hi

/-- Witness queue for the amended claim C1. -/
def t1w : Track :=
  ⟨chars "i1w", chars "Hello", [chars "Adele"], chars "Alb", chars "d", 1, 1, 1,
   [], false, .spotify, .track, [], 0⟩

/-- Witness for the amended claim C1 on a one-track queue whose output file
already exists. -/
theorem queue_outcomes_amended_witness :
    ∃ jobs, downloadRun cfg6 (fun _ => env8) (.ok [t1w]) 0 = .outcomes jobs ∧
      jobs.length = ([t1w] : List Track).length ∧
      ∀ i (h1 : i < ([t1w] : List Track).length) (h2 : i < jobs.length),
        (jobs.get ⟨i, h2⟩).track = setCI 0 (([t1w] : List Track).get ⟨i, h1⟩) :=
  queue_outcomes_amended cfg6 (fun _ => env8) [t1w] 0
    (fun t ht => by
      have ht2 : t = setCI 0 t1w := by simpa using ht
      subst ht2
      exact Res.exists_ok_iff.mpr (by decide))

/-! Claim theorems: album completeness report -/

/-- The rendered-track pairing used throughout the report. -/
def pairStr (t : Track) : Track × Str := (t, trackStrD t)

theorem mapRes_pairStr {tracks : List Track}
    (hart : ∀ t ∈ tracks, t.artists ≠ []) :
    mapRes (fun t => Res.bind (Track.str t) fun s => .ok (t, s)) tracks =
      .ok (tracks.map pairStr) :=
  mapRes_eq_map fun t ht => by rw [str_eq_strD (hart t ht), Res.bind_ok]; rfl

theorem mapRes_jobStr {failedJobs : List Status}
    (hart : ∀ j ∈ failedJobs, j.track.artists ≠ []) :
    mapRes (fun j => Res.bind (Track.str j.track) fun s => .ok (j, s)) failedJobs =
      .ok (failedJobs.map fun j => (j, trackStrD j.track)) :=
  mapRes_eq_map fun j hj => by rw [str_eq_strD (hart j hj), Res.bind_ok]

theorem filterPair_pos (passJobs : List Str) :
    ∀ tracks : List Track,
      ((tracks.map pairStr).filter fun p => decide (p.2 ∈ passJobs)).map Prod.fst =
        tracks.filter fun t => decide (trackStrD t ∈ passJobs)
  | [] => rfl
  | x :: xs => by
    by_cases hx : trackStrD x ∈ passJobs
    · simp [List.filter_cons, pairStr, hx, filterPair_pos passJobs xs]
    · simp [List.filter_cons, pairStr, hx, filterPair_pos passJobs xs]

theorem filterPair_neg (passJobs : List Str) :
    ∀ tracks : List Track,
      ((tracks.map pairStr).filter fun p => decide (p.2 ∉ passJobs)) =
        (tracks.filter fun t => decide (trackStrD t ∉ passJobs)).map pairStr
  | [] => rfl
  | x :: xs => by
    have ih := filterPair_neg passJobs xs
    simp only [decide_not] at ih
    by_cases hx : trackStrD x ∈ passJobs
    · simp [List.filter_cons, pairStr, hx, ih]
    · simp [List.filter_cons, pairStr, hx, ih]

theorem reasonOf_ok {failedJobs : List Status} {s : Str}
    (herr : ∀ j ∈ failedJobs, (j.error).isSome = true)
    (hwit : ∃ j ∈ failedJobs, trackStrD j.track = s) :
    ∃ m, reasonOf (failedJobs.map fun j => (j, trackStrD j.track)) s = .ok m ∧
      ∃ j ∈ failedJobs, trackStrD j.track = s ∧ j.error = some m := by
  obtain ⟨j, hjmem, hjs⟩ := hwit
  have hmemf : (j, trackStrD j.track) ∈
      (failedJobs.map fun j => (j, trackStrD j.track)).filter fun p => decide (p.2 = s) := by
    refine List.mem_filter.mpr ⟨List.mem_map.mpr ⟨j, hjmem, rfl⟩, by simpa using hjs⟩
  cases hfl : (failedJobs.map fun j => (j, trackStrD j.track)).filter
      fun p => decide (p.2 = s) with
  | nil =>
    rw [hfl] at hmemf
    cases hmemf
  | cons j0 rest =>
    have hj0 : j0 ∈ (failedJobs.map fun j => (j, trackStrD j.track)).filter
        fun p => decide (p.2 = s) := by rw [hfl]; simp
    have hj0f := List.mem_filter.mp hj0
    obtain ⟨j1, hj1mem, hj1eq⟩ := List.mem_map.mp hj0f.1
    have hj1s : trackStrD j1.track = s := by
      have := hj0f.2
      rw [← hj1eq] at this
      simpa using this
    have hj1some : (j1.error).isSome = true := herr j1 hj1mem
    obtain ⟨m, hm⟩ := Option.isSome_iff_exists.mp hj1some
    refine ⟨m, ?_, j1, hj1mem, hj1s, hm⟩
    unfold reasonOf
    rw [hfl, ← hj1eq]
    dsimp only
    rw [hm]

theorem incompleteEntry_spec (failedJobs : List Status) (album : Str)
    (passTracks : List Track) (failL : List Track)
    (hfne : passTracks = [] → failL ≠ [])
    (hfart : ∀ j ∈ failedJobs, j.track.artists ≠ [])
    (herr : ∀ j ∈ failedJobs, (j.error).isSome = true)
    (hwit : ∀ t ∈ failL, ∃ j ∈ failedJobs, trackStrD j.track = trackStrD t) :
    ∃ d missing,
      incompleteEntry failedJobs false album passTracks (failL.map pairStr) =
        .ok (.incomplete album passTracks.length d missing) ∧
      missing.length = failL.length ∧
      List.Sorted (fun x y : FailLine => x.number ≤ y.number) missing ∧
      ∀ line ∈ missing, ∃ t ∈ failL,
        line.number = t.track_number ∧ line.name = t.name ∧
        ∃ j ∈ failedJobs, trackStrD j.track = trackStrD t ∧
          j.error = some line.reason := by
  have halb : ∃ at0,
      (if passTracks.length > 0 then pyIndex passTracks 0
       else Res.bind (pyIndex (failL.map pairStr) 0) fun p => .ok p.1) = .ok at0 := by
    cases passTracks with
    | cons p0 pr => exact ⟨p0, by simp [pyIndex]⟩
    | nil =>
      have hf : failL ≠ [] := hfne rfl
      cases hfc : failL with
      | nil => exact absurd hfc hf
      | cons f0 fr => exact ⟨f0, by simp [pyIndex, pairStr]⟩
  obtain ⟨at0, hat⟩ := halb
  have hperm : (List.insertionSort numAsc (failL.map pairStr)).Perm (failL.map pairStr) :=
    List.perm_insertionSort numAsc (failL.map pairStr)
  have hsortedP : List.Sorted numAsc (List.insertionSort numAsc (failL.map pairStr)) :=
    List.sorted_insertionSort numAsc (failL.map pairStr)
  obtain ⟨missing, hmiss, hmlen, hmall⟩ := mapRes_ok_forall
    (f := fun p => Res.bind
      (reasonOf (failedJobs.map fun j => (j, trackStrD j.track)) p.2)
      fun r => .ok (⟨p.1.track_number, p.1.name, r⟩ : FailLine))
    (P := fun p line => line.number = p.1.track_number ∧ line.name = p.1.name ∧
      ∃ t ∈ failL, p = pairStr t ∧
      ∃ j ∈ failedJobs, trackStrD j.track = p.2 ∧ j.error = some line.reason)
    (l := List.insertionSort numAsc (failL.map pairStr))
    (fun p hp => by
      have hpm : p ∈ failL.map pairStr := hperm.mem_iff.mp hp
      obtain ⟨t, htmem, hteq⟩ := List.mem_map.mp hpm
      have hp2 : p.2 = trackStrD t := by rw [← hteq]; rfl
      obtain ⟨m, hro, j, hjmem, hjs, hje⟩ := reasonOf_ok herr
        (s := p.2) (by rw [hp2]; exact hwit t htmem)
      refine ⟨⟨p.1.track_number, p.1.name, m⟩, by dsimp only; rw [hro, Res.bind_ok],
        rfl, rfl, t, htmem, hteq.symm, j, hjmem, hjs, hje⟩)
  refine ⟨at0.album_track_count, missing, ?_, ?_, ?_, ?_⟩
  · unfold incompleteEntry
    rw [hat, Res.bind_ok, mapRes_jobStr hfart, Res.bind_ok, hmiss, Res.bind_ok]
    rfl
  · rw [hmlen, hperm.length_eq, List.length_map]
  · refine List.pairwise_iff_get.mpr ?_
    intro i j hij
    have hiS : (i : Nat) < (List.insertionSort numAsc (failL.map pairStr)).length := by
      have := i.isLt
      omega
    have hjS : (j : Nat) < (List.insertionSort numAsc (failL.map pairStr)).length := by
      have := j.isLt
      omega
    obtain ⟨hPi1, -, -⟩ := hmall i hiS i.isLt
    obtain ⟨hPj1, -, -⟩ := hmall j hjS j.isLt
    have hs := List.pairwise_iff_get.mp hsortedP ⟨i, hiS⟩ ⟨j, hjS⟩ (by simpa using hij)
    have hget : missing.get ⟨(i : Nat), i.isLt⟩ = missing.get i := rfl
    have hget2 : missing.get ⟨(j : Nat), j.isLt⟩ = missing.get j := rfl
    rw [hget] at hPi1
    rw [hget2] at hPj1
    rw [hPi1, hPj1]
    exact hs
  · intro line hline
    obtain ⟨n, hn⟩ := List.mem_iff_get.mp hline
    have hnS : (n : Nat) < (List.insertionSort numAsc (failL.map pairStr)).length := by
      have := n.isLt
      omega
    obtain ⟨h1, h2, t, htmem, hteq, j, hjmem, hjs, hje⟩ := hmall n hnS n.isLt
    have hget : missing.get ⟨(n : Nat), n.isLt⟩ = line := hn
    rw [hget] at h1 h2 hje
    refine ⟨t, htmem, ?_, ?_, j, hjmem, ?_, hje⟩
    · rw [h1, hteq]
      rfl
    · rw [h2, hteq]
      rfl
    · rw [hjs, hteq]
      rfl

theorem albumEntryCore_spec (failedJobs : List Status) (album : Str)
    (passL : List Track) (failL : List Track)
    (hfne : passL = [] → failL ≠ [])
    (hfart : ∀ j ∈ failedJobs, j.track.artists ≠ [])
    (herr : ∀ j ∈ failedJobs, (j.error).isSome = true)
    (hwit : ∀ t ∈ failL, ∃ j ∈ failedJobs, trackStrD j.track = trackStrD t) :
    ∃ e, albumEntryCore failedJobs false album passL (failL.map pairStr) = .ok e ∧
      (e.isComplete = true ↔
        ∃ p0, passL.head? = some p0 ∧
          ((passL.length : Nat) : Int) = p0.album_track_count) ∧
      ∀ a pc d missing, e = .incomplete a pc d missing →
        pc = passL.length ∧
        missing.length = failL.length ∧
        List.Sorted (fun x y : FailLine => x.number ≤ y.number) missing ∧
        ∀ line ∈ missing, ∃ t ∈ failL,
          line.number = t.track_number ∧ line.name = t.name ∧
          ∃ j ∈ failedJobs, trackStrD j.track = trackStrD t ∧
            j.error = some line.reason := by
  cases passL with
  | cons p0 prest =>
    unfold albumEntryCore
    dsimp only
    by_cases hcnt : ((((p0 :: prest).length : Nat)) : Int) = p0.album_track_count
    · rw [if_pos hcnt]
      refine ⟨_, rfl, ?_, ?_⟩
      · constructor
        · intro _
          exact ⟨p0, rfl, hcnt⟩
        · intro _
          rfl
      · intro a pc d missing h
        cases h
    · rw [if_neg hcnt]
      obtain ⟨d, missing, hie, hlen, hsort, hall⟩ := incompleteEntry_spec
        failedJobs album (p0 :: prest) failL (fun h => absurd h (by simp))
        hfart herr hwit
      refine ⟨_, hie, ?_, ?_⟩
      · simp only [AlbumEntry.isComplete]
        constructor
        · intro h
          cases h
        · rintro ⟨p1, hp1, hcnt2⟩
          injection hp1 with hp1
          rw [← hp1] at hcnt2
          exact absurd hcnt2 hcnt
      · intro a pc d2 missing2 h
        injection h with ha hpc hd hmiss
        subst hpc
        subst hmiss
        exact ⟨rfl, hlen, hsort, hall⟩
  | nil =>
    unfold albumEntryCore
    obtain ⟨d, missing, hie, hlen, hsort, hall⟩ := incompleteEntry_spec
      failedJobs album [] failL (fun _ => hfne rfl) hfart herr hwit
    refine ⟨_, hie, ?_, ?_⟩
    · simp [AlbumEntry.isComplete]
    · intro a pc d2 missing2 h
      injection h with ha hpc hd hmiss
      subst hpc
      subst hmiss
      exact ⟨rfl, hlen, hsort, hall⟩

/-- Spec-side view used by the claim C9 statements: the passing tracks of
an album group (those whose rendering occurs among the successful jobs). -/
def passListOf (passJobs : List Str) (tracks : List Track) : List Track :=
  tracks.filter fun t => decide (trackStrD t ∈ passJobs)

/-- Spec-side view used by the claim C9 statements: the failing tracks of
an album group. -/
def failListOf (passJobs : List Str) (tracks : List Track) : List Track :=
  tracks.filter fun t => decide (trackStrD t ∉ passJobs)

/-- Track for the claim C9 counterexample: its declared album track count
is 0 and its only job failed. -/
def t9c : Track :=
  ⟨chars "i9", chars "N", [chars "X"], chars "A", chars "d", 1, 1, 0,
   [], false, .spotify, .track, [], 0⟩

/-- Failed job for the claim C9 counterexample. -/
def j9c : Status := ⟨t9c, 1, chars "loc", some (.lit (chars "r"))⟩

/-- Counterexample to claim C9 as stated: an album with zero passing tracks
and a declared track count of 0 has its passing count equal to the declared
count, yet the report marks it INCOMPLETE, because the branch of line 207
additionally requires at least one passing track.  The claimed equivalence
is therefore not an iff on the code. -/
theorem album_complete_cex :
    consolidate [t9c] [j9c] false =
      .ok [.incomplete (chars "A") 0 0 [⟨1, chars "N", .lit (chars "r")⟩]] ∧
    (((passListOf [] [t9c]).length : Nat) : Int) = t9c.album_track_count ∧
    (AlbumEntry.incomplete (chars "A") 0 0
      [⟨1, chars "N", .lit (chars "r")⟩]).isComplete = false := by
  refine ⟨by decide, by decide, by decide⟩

/-- Claim C9 amended: in the album report (with incomplete-album removal
off), an album is marked COMPLETE if and only if it has at least one
passing track and the number of passing tracks equals the declared total
track count read from the first passing track; otherwise it is marked
INCOMPLETE and its failing tracks are listed sorted ascending by track
number, each line carrying the failure reason of a failed job whose
rendered track matches — provided every track and failed job carries a
primary artist, every failed job carries an error entry, and every failing
track has a matching failed job (which the download pass guarantees). -/
theorem album_completeness_amended (passJobs : List Str)
    (failedJobs : List Status) (album : Str) (tracks : List Track)
    (hne : tracks ≠ [])
    (hart : ∀ t ∈ tracks, t.artists ≠ [])
    (hfart : ∀ j ∈ failedJobs, j.track.artists ≠ [])
    (herr : ∀ j ∈ failedJobs, (j.error).isSome = true)
    (hcover : ∀ t ∈ tracks, trackStrD t ∉ passJobs →
      ∃ j ∈ failedJobs, trackStrD j.track = trackStrD t) :
    ∃ e, albumEntry passJobs failedJobs false album tracks = .ok e ∧
      (e.isComplete = true ↔
        ∃ p0, (passListOf passJobs tracks).head? = some p0 ∧
          (((passListOf passJobs tracks).length : Nat) : Int) =
            p0.album_track_count) ∧
      ∀ a pc d missing, e = .incomplete a pc d missing →
        pc = (passListOf passJobs tracks).length ∧
        missing.length = (failListOf passJobs tracks).length ∧
        List.Sorted (fun x y : FailLine => x.number ≤ y.number) missing ∧
        ∀ line ∈ missing, ∃ t ∈ tracks, trackStrD t ∉ passJobs ∧
          line.number = t.track_number ∧ line.name = t.name ∧
          ∃ j ∈ failedJobs, trackStrD j.track = trackStrD t ∧
            j.error = some line.reason := by
  simp only [passListOf, failListOf]
  unfold albumEntry
  rw [mapRes_pairStr hart, Res.bind_ok, filterPair_pos passJobs tracks,
    filterPair_neg passJobs tracks]
  have hfne : (tracks.filter fun t => decide (trackStrD t ∈ passJobs)) = [] →
      (tracks.filter fun t => decide (trackStrD t ∉ passJobs)) ≠ [] := by
    intro hp hf
    cases htr : tracks with
    | nil => exact hne htr
    | cons x xs =>
      have h1 := List.filter_eq_nil.mp hp x (by rw [htr]; simp)
      have h2 := List.filter_eq_nil.mp hf x (by rw [htr]; simp)
      simp only [decide_eq_true_eq] at h1 h2
      exact h2 h1
  have hwit : ∀ t ∈ tracks.filter fun t => decide (trackStrD t ∉ passJobs),
      ∃ j ∈ failedJobs, trackStrD j.track = trackStrD t := by
    intro t ht
    have htf := List.mem_filter.mp ht
    exact hcover t htf.1 (by simpa using htf.2)
  obtain ⟨e, he, hiff, hinc⟩ := albumEntryCore_spec failedJobs album
    (tracks.filter fun t => decide (trackStrD t ∈ passJobs))
    (tracks.filter fun t => decide (trackStrD t ∉ passJobs)) hfne hfart herr hwit
  refine ⟨e, he, hiff, ?_⟩
  intro a pc d missing h
  obtain ⟨hpc, hlen, hsort, hall⟩ := hinc a pc d missing h
  refine ⟨hpc, hlen, hsort, ?_⟩
  intro line hl
  obtain ⟨t, htm, hnum, hname, j, hjm, hjs, hje⟩ := hall line hl
  have htf := List.mem_filter.mp htm
  exact ⟨t, htf.1, by simpa using htf.2, hnum, hname, j, hjm, hjs, hje⟩

/-- Witness track for the amended claim C9: declared count 3, one failing
track. -/
def t9w : Track :=
  ⟨chars "i9w", chars "N", [chars "X"], chars "A", chars "d", 1, 2, 3,
   [], false, .spotify, .track, [], 0⟩

/-- Witness failed job for the amended claim C9. -/
def j9w : Status := ⟨t9w, 1, chars "loc", some (.lit (chars "no match"))⟩

/-- Witness for the amended claim C9 at a one-track album with no passing
job. -/
theorem album_completeness_amended_witness :
    ∃ e, albumEntry [] [j9w] false (chars "A") [t9w] = .ok e ∧
      (e.isComplete = true ↔
        ∃ p0, (passListOf [] [t9w]).head? = some p0 ∧
          (((passListOf [] [t9w]).length : Nat) : Int) = p0.album_track_count) ∧
      ∀ a pc d missing, e = .incomplete a pc d missing →
        pc = (passListOf [] [t9w]).length ∧
        missing.length = (failListOf [] [t9w]).length ∧
        List.Sorted (fun x y : FailLine => x.number ≤ y.number) missing ∧
        ∀ line ∈ missing, ∃ t ∈ [t9w], trackStrD t ∉ ([] : List Str) ∧
          line.number = t.track_number ∧ line.name = t.name ∧
          ∃ j ∈ [j9w], trackStrD j.track = trackStrD t ∧
            j.error = some line.reason :=
  album_completeness_amended [] [j9w] (chars "A") [t9w] (by decide) (by decide)
    (by decide) (by decide) (by decide)

end Savify
